import Mathlib

/-!
# Zipkin JSON codec (`plugins/inputs/zipkin/codec/json/json.go`)

A shallow embedding of the identifier codec (`TraceIDFromString`, `IDFromString`),
of the span accessors and of `Decode`, together with the properties of the
specification that concern them.

Conventions of the embedding.

* A Go `string` is its sequence of bytes (`GoString`); `len` is the number of bytes
  and `s[i:j]` is `take`/`drop` on that sequence.
* `uint64` values are natural numbers, every arithmetic step reduced modulo `2^64`;
  `int64` values are integers, wrapped into `[-2^63, 2^63)`.
* A Go result `(v, err)` is the pair `(v, e)` with `e : Option Error`; `none` is `nil`.
* The library routines the file calls (`strconv.ParseUint`, `strconv.FormatUint`,
  the `%x` / `%016x` / `%d` verbs of `fmt`, the struct decoding of `json.Unmarshal`) are
  transcribed from the Go standard library, instantiated at the arguments used in this file.
-/

namespace Zipkin

/-! ## Strings and errors -/

/-- A Go string: an immutable sequence of bytes. -/
abbrev GoString := List UInt8

/-- The bytes (UTF-8) of a string literal. -/
def str (s : String) : GoString := s.toList.flatMap String.utf8EncodeChar

/-- The error values that the codec can return. -/
inductive Error where
  /-- A `*strconv.NumError` with `Err = strconv.ErrSyntax`; `num` is the rejected input. -/
  | numSyntax (num : GoString)
  /-- A `*strconv.NumError` with `Err = strconv.ErrRange`. -/
  | numRange (num : GoString)
  /-- An error made by `fmt.Errorf`, carrying its formatted message. -/
  | errorf (msg : GoString)
  /-- A `*json.SyntaxError`: the octets are not a well-formed JSON text. -/
  | jsonSyntax
  /-- A `*json.UnmarshalTypeError`: a JSON value does not fit the Go type it is decoded into. -/
  | unmarshalType
  deriving DecidableEq

/-! ## `strconv.ParseUint(s, 16, 64)` -/

namespace strconv

/-- The constant `maxUint64`. -/
def maxUint64 : Nat := 2 ^ 64 - 1

/-- The helper `lower(c) = c | ('x' - 'X')`. -/
def lower (c : UInt8) : Nat := c.toNat ||| 0x20

/-- The digit `switch` of the parsing loop (the `'_'` case needs `base == 0` and is not
reachable here): `some d` for a digit or letter, `none` for the `default` branch. -/
def digitOf (c : UInt8) : Option Nat :=
  if 48 ≤ c.toNat ∧ c.toNat ≤ 57 then some (c.toNat - 48)
  else if 97 ≤ lower c ∧ lower c ≤ 122 then some (lower c - 97 + 10)
  else none

/-- The body of `for _, c := range []byte(s)` in `ParseUint`, with `base = 16`,
`cutoff = maxUint64/16 + 1` and `maxVal = 1<<64 - 1`; `n` is the accumulator and `s0`
the whole input, quoted in the error. -/
def parseLoop (s0 : GoString) : List UInt8 → Nat → Nat × Option Error
  | [], n => (n, none)
  | c :: cs, n =>
    match digitOf c with
    | none => (0, some (Error.numSyntax s0))
    | some d =>
      if d ≥ 16 then (0, some (Error.numSyntax s0))
      else if n ≥ maxUint64 / 16 + 1 then (maxUint64, some (Error.numRange s0))
      else
        let n16 := (n * 16) % 2 ^ 64
        let n1 := (n16 + d) % 2 ^ 64
        if n1 < n16 ∨ n1 > maxUint64 then (maxUint64, some (Error.numRange s0))
        else parseLoop s0 cs n1

/-- The call `strconv.ParseUint(s, 16, 64)`: the empty string is a syntax error, otherwise
the digits are accumulated from the left. -/
def ParseUint (s : GoString) : Nat × Option Error :=
  if s = [] then (0, some (Error.numSyntax s)) else parseLoop s s 0

/-- The digit table `"0123456789abcdefghijklmnopqrstuvwxyz"` of `strconv`. -/
def digits : GoString := str "0123456789abcdefghijklmnopqrstuvwxyz"

/-- The general loop of `formatBits` for base 10: digits are written from the end of a
65-byte buffer, `slots` being the number of free slots left (`i`). -/
def formatLoop : Nat → Nat → GoString → GoString
  | 0, _, buf => buf
  | slots + 1, u, buf =>
    if u ≥ 10 then
      let q := u / 10
      formatLoop slots q (digits.getD (u - q * 10) 0 :: buf)
    else digits.getD u 0 :: buf

/-- The call `strconv.FormatUint(i, 10)`. -/
def FormatUint (i : Nat) : GoString := formatLoop 65 i []

end strconv

/-! ## The `%x` and `%016x` verbs of `fmt` -/

namespace fmt

/-- The digit table `ldigits = "0123456789abcdefx"`. -/
def ldigits : GoString := str "0123456789abcdefx"

/-- The base-16 loop of `fmtInteger`: `for u >= 16 { i--; buf[i] = digits[u&0xF]; u >>= 4 }`
followed by `i--; buf[i] = digits[u]`; `slots` is the number of free slots of `intbuf`. -/
def hexLoop : Nat → Nat → GoString → GoString
  | 0, _, buf => buf
  | slots + 1, u, buf =>
    if u ≥ 16 then hexLoop slots (u >>> 4) (ldigits.getD (u &&& 0xF) 0 :: buf)
    else ldigits.getD u 0 :: buf

/-- The zero padding of `fmtInteger`: `for i > 0 && prec > len(buf)-i { i--; buf[i] = '0' }`. -/
def zeroPad (prec : Nat) (buf : GoString) : GoString :=
  List.replicate (prec - buf.length) 48 ++ buf

/-- The method `fmtInteger(u, 16, false, 'x', ldigits)` with `prec` the zero-padding
precision (the width when the `0` flag is set, `0` otherwise); `intbuf` has 68 bytes. -/
def fmtInteger (u : Nat) (prec : Nat) : GoString := zeroPad prec (hexLoop 68 u [])

/-- The call `fmt.Sprintf("%x", lo)`. -/
def sprintf_x (lo : Nat) : GoString := fmtInteger lo 0

/-- The call `fmt.Sprintf("%x%016x", hi, lo)`. -/
def sprintf_x_016x (hi lo : Nat) : GoString := fmtInteger hi 0 ++ fmtInteger lo 16

end fmt

/-! ## The identifier codec -/

/-- The function `TraceIDFromString`: it creates a TraceID from a hexadecimal string. -/
def TraceIDFromString (s : GoString) : GoString × Option Error :=
  if s.length > 32 then
    ([], some (Error.errorf (str "TraceID cannot be longer than 32 hex characters: " ++ s)))
  else if s.length > 16 then
    let hiLen := s.length - 16
    match strconv.ParseUint (s.take hiLen) with
    | (_, some err) => ([], some err)
    | (hi, none) =>
      match strconv.ParseUint (s.drop hiLen) with
      | (_, some err) => ([], some err)
      | (lo, none) =>
        if hi = 0 then (fmt.sprintf_x lo, none) else (fmt.sprintf_x_016x hi lo, none)
  else
    match strconv.ParseUint s with
    | (_, some err) => ([], some err)
    | (lo, none) => (fmt.sprintf_x lo, none)

/-- The function `IDFromString`: it creates a decimal id from a hexadecimal string. -/
def IDFromString (s : GoString) : GoString × Option Error :=
  if s.length > 16 then
    ([], some (Error.errorf (str "ID cannot be longer than 16 hex characters: " ++ s)))
  else
    match strconv.ParseUint s with
    | (_, some err) => ([], some err)
    | (id, none) => (strconv.FormatUint id, none)

/-! ## Numerals: the vocabulary of the specification -/

/-- The value of a hexadecimal digit character `0-9`, `a-f`, `A-F`. -/
def hexDigitValue (c : UInt8) : Option Nat :=
  if 48 ≤ c.toNat ∧ c.toNat ≤ 57 then some (c.toNat - 48)
  else if 97 ≤ c.toNat ∧ c.toNat ≤ 102 then some (c.toNat - 87)
  else if 65 ≤ c.toNat ∧ c.toNat ≤ 70 then some (c.toNat - 55)
  else none

/-- The value of a decimal digit character `0-9`. -/
def decDigitValue (c : UInt8) : Option Nat :=
  if 48 ≤ c.toNat ∧ c.toNat ≤ 57 then some (c.toNat - 48) else none

/-- A hexadecimal string: every byte is one of `0-9`, `a-f`, `A-F`. -/
def IsHexString (s : GoString) : Prop := ∀ c ∈ s, (hexDigitValue c).isSome = true

/-- A lowercase hexadecimal string: every byte is one of `0-9`, `a-f`. -/
def IsLowerHexString (s : GoString) : Prop :=
  ∀ c ∈ s, (48 ≤ c.toNat ∧ c.toNat ≤ 57) ∨ (97 ≤ c.toNat ∧ c.toNat ≤ 102)

/-- A decimal string: every byte is one of `0-9`. -/
def IsDecimalString (s : GoString) : Prop := ∀ c ∈ s, (decDigitValue c).isSome = true

/-- The number denoted by a digit string in base `b`, continuing from the value `n` of the
digits already read; `dv` gives the value of a digit (bytes that are no digit count `0`). -/
def numeralFrom (b : Nat) (dv : UInt8 → Option Nat) (n : Nat) (s : GoString) : Nat :=
  s.foldl (fun acc c => b * acc + (dv c).getD 0) n

/-- The natural number denoted by a hexadecimal string. -/
def hexValue (s : GoString) : Nat := numeralFrom 16 hexDigitValue 0 s

/-- The natural number denoted by a decimal string. -/
def decValue (s : GoString) : Nat := numeralFrom 10 decDigitValue 0 s

/-- A numeral without leading zeros: it is not empty, and it starts with the digit `0`
only when it is the one-digit numeral `0`. -/
def NoLeadingZeros (t : GoString) : Prop := t ≠ [] ∧ (t.head? = some 48 → t = [48])

/-- The minimal-width lowercase hexadecimal rendering of `v`: `t` is made of the digits
`0-9a-f`, denotes `v`, and has no leading zeros. -/
def MinimalLowerHex (t : GoString) (v : Nat) : Prop :=
  IsLowerHexString t ∧ hexValue t = v ∧ NoLeadingZeros t

/-- The minimal decimal rendering of `v`. -/
def MinimalDecimal (t : GoString) (v : Nat) : Prop :=
  IsDecimalString t ∧ decValue t = v ∧ NoLeadingZeros t

/-- The rendering of `v` as exactly 16 zero-padded lowercase hexadecimal digits. -/
def PaddedLowerHex16 (t : GoString) (v : Nat) : Prop :=
  t.length = 16 ∧ IsLowerHexString t ∧ hexValue t = v

/-- The high part of a trace-ID string: what precedes its last 16 bytes (empty for a
string of at most 16 bytes). -/
def highPart (s : GoString) : GoString := s.take (s.length - 16)

/-- The low part of a trace-ID string: its last 16 bytes (the whole string when it has at
most 16 bytes). -/
def lowPart (s : GoString) : GoString := s.drop (s.length - 16)

instance (s : GoString) : Decidable (IsHexString s) := by
  unfold IsHexString; infer_instance

instance (s : GoString) : Decidable (IsLowerHexString s) := by
  unfold IsLowerHexString; infer_instance

instance (s : GoString) : Decidable (IsDecimalString s) := by
  unfold IsDecimalString; infer_instance

instance (t : GoString) : Decidable (NoLeadingZeros t) := by
  unfold NoLeadingZeros; infer_instance

instance (t : GoString) (v : Nat) : Decidable (MinimalLowerHex t v) := by
  unfold MinimalLowerHex; infer_instance

instance (t : GoString) (v : Nat) : Decidable (MinimalDecimal t v) := by
  unfold MinimalDecimal; infer_instance

instance (t : GoString) (v : Nat) : Decidable (PaddedLowerHex16 t v) := by
  unfold PaddedLowerHex16; infer_instance

/-! ## The wire model -/

/-- The Go type `int64` as a range of integers: the wrap-around of a mathematical result. -/
def wrapInt64 (x : Int) : Int := (x + 2 ^ 63) % 2 ^ 64 - 2 ^ 63

/-- The type `endpoint`; `Port` is a Go `int` (64 bits wide). -/
structure endpoint where
  ServiceName : GoString
  Ipv4 : GoString
  Ipv6 : GoString
  Port : Int
  deriving DecidableEq

/-- The type `annotation`; the pointer field `Endpoint` is `none` when `nil`. -/
structure annotation where
  Endpoint : Option endpoint
  Time : Int
  Val : GoString
  deriving DecidableEq

/-- The type `binaryAnnotation`. -/
structure binaryAnnotation where
  K : GoString
  V : GoString
  Endpoint : Option endpoint
  deriving DecidableEq

/-- The type `span`; the pointer fields `Time` and `Dur` are `none` when `nil`, and a slice
is the list of its elements (a `nil` slice is the empty list). -/
structure span where
  TraceID : GoString
  SpanName : GoString
  ParentID : GoString
  ID : GoString
  Time : Option Int
  Dur : Option Int
  Debug : Bool
  Anno : List annotation
  BAnno : List binaryAnnotation
  deriving DecidableEq

/-- The zero value of `endpoint`. -/
def endpoint.zero : endpoint := ⟨[], [], [], 0⟩

/-- The zero value of `annotation`. -/
def annotation.zero : annotation := ⟨none, 0, []⟩

/-- The zero value of `binaryAnnotation`. -/
def binaryAnnotation.zero : binaryAnnotation := ⟨[], [], none⟩

/-- The zero value of `span`. -/
def span.zero : span := ⟨[], [], [], [], none, none, false, [], []⟩

/-! ## The accessors of a span -/

/-- The method `func (s *span) Trace() (string, error)`. -/
def span.Trace (s : span) : GoString × Option Error := TraceIDFromString s.TraceID

/-- The method `func (s *span) SpanID() (string, error)`. -/
def span.SpanID (s : span) : GoString × Option Error := IDFromString s.ID

/-- The method `func (s *span) Parent() (string, error)`. -/
def span.Parent (s : span) : GoString × Option Error :=
  if s.ParentID = [] then ([], none) else IDFromString s.ParentID

/-- The method `func (s *span) Name() string`. -/
def span.Name (s : span) : GoString := s.SpanName

/-- The constant `time.Microsecond`, in nanoseconds. -/
def time.Microsecond : Int := 1000

/-- The method `func (s *span) Duration() time.Duration`: a `time.Duration` is an `int64` count of
nanoseconds, and the product is an `int64` multiplication. -/
def span.Duration (s : span) : Int :=
  match s.Dur with
  | none => 0
  | some d => wrapInt64 (d * time.Microsecond)

/-! ## `json.Unmarshal` into `[]span` -/

/-- A JSON value as the scanner of `encoding/json` delivers it. `num n` is a number literal
without fraction or exponent, of value `n`; `numOther` is any other number literal; strings
and member names are given unquoted, as bytes. -/
inductive JSONValue where
  | null
  | bool (b : Bool)
  | num (n : Int)
  | numOther
  | str (s : GoString)
  | arr (elems : List JSONValue)
  | obj (members : List (GoString × JSONValue))

namespace json

/-- Whether a byte is an ASCII letter. -/
def isLetter (b : UInt8) : Bool :=
  (65 ≤ b.toNat && b.toNat ≤ 90) || (97 ≤ b.toNat && b.toNat ≤ 122)

/-- The case-insensitive comparison of an (ASCII) field name with a member name: a letter
matches both of its cases, any other byte only itself; in addition `k`/`K` match the Kelvin
sign U+212A and `s`/`S` match the long s U+017F, as simple case folding has it. -/
def equalFold : GoString → GoString → Bool
  | [], [] => true
  | [], _ :: _ => false
  | _ :: _, [] => false
  | f :: fs, 0xE2 :: 0x84 :: 0xAA :: ks => (f = 107 || f = 75) && equalFold fs ks
  | f :: fs, 0xC5 :: 0xBF :: ks => (f = 115 || f = 83) && equalFold fs ks
  | f :: fs, k :: ks =>
    (f = k || (isLetter f && isLetter k && (f.toNat ||| 0x20) = (k.toNat ||| 0x20))) &&
      equalFold fs ks

/-- The field a member name selects among the fields `fields` of a struct (given with their
JSON names): an exact match is preferred, otherwise the first case-insensitive match. -/
def findField {φ : Type} (fields : List (GoString × φ)) (key : GoString) : Option φ :=
  match fields.find? (fun f => f.1 = key) with
  | some f => some f.2
  | none => (fields.find? (fun f => equalFold f.1 key)).map (fun f => f.2)

/-- The method `saveError`: the first error met is the one reported. -/
def saveError (saved : Option Error) (err : Option Error) : Option Error :=
  match saved with
  | some e => some e
  | none => err

/-- Decoding into a `string`. -/
def decodeString (cur : GoString) : JSONValue → GoString × Option Error
  | .str s => (s, none)
  | .null => (cur, none)
  | _ => (cur, some Error.unmarshalType)

/-- Decoding into a `bool`. -/
def decodeBool (cur : Bool) : JSONValue → Bool × Option Error
  | .bool b => (b, none)
  | .null => (cur, none)
  | _ => (cur, some Error.unmarshalType)

/-- Decoding into an `int64` (or a 64-bit `int`): the literal must be an integer in range. -/
def decodeInt64 (cur : Int) : JSONValue → Int × Option Error
  | .num n => if -2 ^ 63 ≤ n ∧ n < 2 ^ 63 then (n, none) else (cur, some Error.unmarshalType)
  | .null => (cur, none)
  | _ => (cur, some Error.unmarshalType)

/-- Decoding into a pointer: `null` makes it `nil`; for any other value a `nil` pointer is
first made to point to a new zero value, and the value is decoded into what it points to. -/
def decodePtr {α : Type} (zero : α) (dec : α → JSONValue → α × Option Error)
    (cur : Option α) : JSONValue → Option α × Option Error
  | .null => (none, none)
  | v => let r := dec (cur.getD zero) v; (some r.1, r.2)

/-- The elements of a JSON array decoded into a slice whose backing array holds `cur`: the
`i`-th element is decoded into the `i`-th element of the backing array (the slice is
lengthened over it), or into a zero value beyond the capacity (the slice is grown). -/
def decodeElems {α : Type} (zero : α) (dec : α → JSONValue → α × Option Error) :
    List α → List JSONValue → List α × Option Error
  | _, [] => ([], none)
  | cur, e :: es =>
    let r := dec (cur.headD zero) e
    let rs := decodeElems zero dec cur.tail es
    (r.1 :: rs.1, saveError r.2 rs.2)

/-- Decoding into a slice `cur` whose backing array holds `spare` between the length and the
capacity of the slice (what an earlier, longer content has left there; zero values need not be
listed). Returns the new slice, the new rest of the backing array, and the error. `null` makes
the slice `nil`, the empty array makes it a new empty slice, and a non-empty array decodes its
elements over the backing array, the slice being cut to the number of elements. -/
def decodeSlice {α : Type} (zero : α) (dec : α → JSONValue → α × Option Error)
    (cur spare : List α) : JSONValue → (List α × List α) × Option Error
  | .null => (([], []), none)
  | .arr elems =>
    if elems.isEmpty then (([], []), none)
    else
      let r := decodeElems zero dec (cur ++ spare) elems
      ((r.1, (cur ++ spare).drop elems.length), r.2)
  | _ => ((cur, spare), some Error.unmarshalType)

/-- The loop over the members of an object: each member is decoded by `step` into the struct
decoded so far, and the first error is kept. -/
def memberFold {α : Type} (step : α → GoString × JSONValue → α × Option Error)
    (st : α × Option Error) (ms : List (GoString × JSONValue)) : α × Option Error :=
  ms.foldl (fun st m => let r := step st.1 m; (r.1, saveError st.2 r.2)) st

/-- Decoding into a struct: `null` leaves it as it is; the members of an object are decoded in
order, each into the field its name selects (`step`), members that select no field being
skipped. -/
def decodeStruct {α : Type} (step : α → GoString × JSONValue → α × Option Error)
    (cur : α) : JSONValue → α × Option Error
  | .null => (cur, none)
  | .obj members => memberFold step (cur, none) members
  | _ => (cur, some Error.unmarshalType)

/-- The fields of `endpoint`. -/
inductive endpointField where
  | ServiceName | Ipv4 | Ipv6 | Port
  deriving DecidableEq

/-- The JSON names of the fields of `endpoint`, from the struct tags. -/
def endpointFields : List (GoString × endpointField) :=
  [(Zipkin.str "serviceName", .ServiceName), (Zipkin.str "ipv4", .Ipv4),
   (Zipkin.str "ipv6", .Ipv6), (Zipkin.str "port", .Port)]

/-- One member of an object decoded into an `endpoint`. -/
def endpointStep (e : endpoint) (m : GoString × JSONValue) : endpoint × Option Error :=
  match findField endpointFields m.1 with
  | none => (e, none)
  | some .ServiceName =>
    let r := decodeString e.ServiceName m.2; ({ e with ServiceName := r.1 }, r.2)
  | some .Ipv4 => let r := decodeString e.Ipv4 m.2; ({ e with Ipv4 := r.1 }, r.2)
  | some .Ipv6 => let r := decodeString e.Ipv6 m.2; ({ e with Ipv6 := r.1 }, r.2)
  | some .Port => let r := decodeInt64 e.Port m.2; ({ e with Port := r.1 }, r.2)

/-- Decoding into an `endpoint`. -/
def decodeEndpoint : endpoint → JSONValue → endpoint × Option Error :=
  decodeStruct endpointStep

/-- The fields of `annotation`. -/
inductive annotationField where
  | Endpoint | Time | Val
  deriving DecidableEq

/-- The JSON names of the fields of `annotation`. -/
def annotationFields : List (GoString × annotationField) :=
  [(Zipkin.str "endpoint", .Endpoint), (Zipkin.str "timestamp", .Time),
   (Zipkin.str "value", .Val)]

/-- One member of an object decoded into an `annotation`. -/
def annotationStep (a : annotation) (m : GoString × JSONValue) : annotation × Option Error :=
  match findField annotationFields m.1 with
  | none => (a, none)
  | some .Endpoint =>
    let r := decodePtr endpoint.zero decodeEndpoint a.Endpoint m.2
    ({ a with Endpoint := r.1 }, r.2)
  | some .Time => let r := decodeInt64 a.Time m.2; ({ a with Time := r.1 }, r.2)
  | some .Val => let r := decodeString a.Val m.2; ({ a with Val := r.1 }, r.2)

/-- Decoding into an `annotation`. -/
def decodeAnnotation : annotation → JSONValue → annotation × Option Error :=
  decodeStruct annotationStep

/-- The fields of `binaryAnnotation`. -/
inductive binaryAnnotationField where
  | K | V | Endpoint
  deriving DecidableEq

/-- The JSON names of the fields of `binaryAnnotation`. -/
def binaryAnnotationFields : List (GoString × binaryAnnotationField) :=
  [(Zipkin.str "key", .K), (Zipkin.str "value", .V), (Zipkin.str "endpoint", .Endpoint)]

/-- One member of an object decoded into a `binaryAnnotation`. -/
def binaryAnnotationStep (b : binaryAnnotation) (m : GoString × JSONValue) :
    binaryAnnotation × Option Error :=
  match findField binaryAnnotationFields m.1 with
  | none => (b, none)
  | some .K => let r := decodeString b.K m.2; ({ b with K := r.1 }, r.2)
  | some .V => let r := decodeString b.V m.2; ({ b with V := r.1 }, r.2)
  | some .Endpoint =>
    let r := decodePtr endpoint.zero decodeEndpoint b.Endpoint m.2
    ({ b with Endpoint := r.1 }, r.2)

/-- Decoding into a `binaryAnnotation`. -/
def decodeBinaryAnnotation : binaryAnnotation → JSONValue → binaryAnnotation × Option Error :=
  decodeStruct binaryAnnotationStep

/-- The fields of `span`. -/
inductive spanField where
  | TraceID | SpanName | ParentID | ID | Time | Dur | Debug | Anno | BAnno
  deriving DecidableEq

/-- The JSON names of the fields of `span`, from the struct tags. -/
def spanFields : List (GoString × spanField) :=
  [(Zipkin.str "traceId", .TraceID), (Zipkin.str "name", .SpanName),
   (Zipkin.str "parentId", .ParentID), (Zipkin.str "id", .ID),
   (Zipkin.str "timestamp", .Time), (Zipkin.str "duration", .Dur),
   (Zipkin.str "debug", .Debug), (Zipkin.str "annotations", .Anno),
   (Zipkin.str "binaryAnnotations", .BAnno)]

/-- A `span` while it is decoded: the record `val` and, for its two slices, what their backing
arrays hold beyond the length of the slice. -/
structure spanBuf where
  val : span
  annoSpare : List annotation
  bannoSpare : List binaryAnnotation

/-- One member of an object decoded into a `span`. -/
def spanStep (b : spanBuf) (m : GoString × JSONValue) : spanBuf × Option Error :=
  let s := b.val
  match findField spanFields m.1 with
  | none => (b, none)
  | some .TraceID =>
    let r := decodeString s.TraceID m.2; ({ b with val := { s with TraceID := r.1 } }, r.2)
  | some .SpanName =>
    let r := decodeString s.SpanName m.2; ({ b with val := { s with SpanName := r.1 } }, r.2)
  | some .ParentID =>
    let r := decodeString s.ParentID m.2; ({ b with val := { s with ParentID := r.1 } }, r.2)
  | some .ID =>
    let r := decodeString s.ID m.2; ({ b with val := { s with ID := r.1 } }, r.2)
  | some .Time =>
    let r := decodePtr 0 decodeInt64 s.Time m.2; ({ b with val := { s with Time := r.1 } }, r.2)
  | some .Dur =>
    let r := decodePtr 0 decodeInt64 s.Dur m.2; ({ b with val := { s with Dur := r.1 } }, r.2)
  | some .Debug =>
    let r := decodeBool s.Debug m.2; ({ b with val := { s with Debug := r.1 } }, r.2)
  | some .Anno =>
    let r := decodeSlice annotation.zero decodeAnnotation s.Anno b.annoSpare m.2
    ({ b with val := { s with Anno := r.1.1 }, annoSpare := r.1.2 }, r.2)
  | some .BAnno =>
    let r := decodeSlice binaryAnnotation.zero decodeBinaryAnnotation s.BAnno b.bannoSpare m.2
    ({ b with val := { s with BAnno := r.1.1 }, bannoSpare := r.1.2 }, r.2)

/-- Decoding into a `span` whose slices have no spare capacity (as in every element of the
slice `spans`, which starts `nil`). -/
def decodeSpan (cur : span) (v : JSONValue) : span × Option Error :=
  let r := decodeStruct spanStep ⟨cur, [], []⟩ v
  (r.1.val, r.2)

/-- The call `json.Unmarshal(octets, &spans)`. The scanner is not part of the model: the
octets are given by what it makes of them, `none` when they are not a well-formed JSON text
and otherwise the JSON value they denote. Returns the new value of `spans` and the error. -/
def Unmarshal (octets : Option JSONValue) (spans : List span) : List span × Option Error :=
  match octets with
  | none => (spans, some Error.jsonSyntax)
  | some v => let r := decodeSlice span.zero decodeSpan spans [] v; (r.1.1, r.2)

end json

/-! ## `Decode` -/

/-- The address of a `span` variable. -/
abbrev Ptr := Nat

/-- What `Decode` returns: the slice `res` of `codec.Span` interface values, each holding a
`*span` (`none` is the `nil` interface), the error, and the memory `mem` in which the `span`
variables whose address was taken live on, indexed by address. -/
structure Decoded where
  res : List (Option Ptr)
  err : Option Error
  mem : List span

/-- The loop `for i, s := range spans { res[i] = &s }`. The iteration variable `s` is one
variable, declared once for the whole statement and assigned each element in turn (the
semantics of `for` before Go 1.22, the language of this code base); `sAddr` is its address,
`i` the index of the next element. -/
def decodeLoop (sAddr : Ptr) : List span → Nat → List span → List (Option Ptr) →
    List span × List (Option Ptr)
  | [], _, mem, res => (mem, res)
  | x :: rest, i, mem, res =>
    decodeLoop sAddr rest (i + 1) (mem.set sAddr x) (res.set i (some sAddr))

/-- The method `func (j *JSON) Decode(octets []byte) ([]codec.Span, error)`: it unmarshals the
body and returns one `codec.Span` per record. -/
def Decode (octets : Option JSONValue) : Decoded :=
  match json.Unmarshal octets [] with
  | (_, some err) => ⟨[], some err, []⟩
  | (spans, none) =>
    let res := List.replicate spans.length none
    let out := decodeLoop 0 spans 0 [span.zero] res
    ⟨out.2, none, out.1⟩

/-- An example body, the JSON text
`[{"traceId":"1","name":"a","id":"1","annotations":[],"binaryAnnotations":[]},
  {"traceId":"2","name":"b","id":"2","annotations":[],"binaryAnnotations":[]}]`:
an array of two span objects named `"a"` and `"b"`. -/
def twoSpanBody : JSONValue :=
  .arr
    [.obj [(str "traceId", .str (str "1")), (str "name", .str (str "a")),
      (str "id", .str (str "1")), (str "annotations", .arr []),
      (str "binaryAnnotations", .arr [])],
     .obj [(str "traceId", .str (str "2")), (str "name", .str (str "b")),
      (str "id", .str (str "2")), (str "annotations", .arr []),
      (str "binaryAnnotations", .arr [])]]

/-- The `span` that the `i`-th returned `codec.Span` points to. -/
def Decoded.at (d : Decoded) (i : Nat) : Option span :=
  match d.res.get? i with
  | some (some p) => d.mem.get? p
  | _ => none

/-! ## Slice expressions with their bounds check -/

/-- The slice expression `s[lo:hi]` of Go with its run-time check: the indices must satisfy
`0 <= lo <= hi <= len(s)`, and `none` stands for the panic raised otherwise. -/
def slice (s : GoString) (lo hi : Int) : Option GoString :=
  if 0 ≤ lo ∧ lo ≤ hi ∧ hi ≤ (s.length : Int) then some ((s.take hi.toNat).drop lo.toNat)
  else none

/-- The function `TraceIDFromString` once more, with the two slice expressions `s[0:hiLen]`
and `s[hiLen:]` checked: `none` stands for a run-time panic. `hiLen` is a Go `int`. -/
def TraceIDFromStringChecked (s : GoString) : Option (GoString × Option Error) :=
  if s.length > 32 then
    some ([], some (Error.errorf
      (str "TraceID cannot be longer than 32 hex characters: " ++ s)))
  else if s.length > 16 then
    let hiLen : Int := (s.length : Int) - 16
    match slice s 0 hiLen with
    | none => none
    | some hiStr =>
      match strconv.ParseUint hiStr with
      | (_, some err) => some ([], some err)
      | (hi, none) =>
        match slice s hiLen s.length with
        | none => none
        | some loStr =>
          match strconv.ParseUint loStr with
          | (_, some err) => some ([], some err)
          | (lo, none) =>
            if hi = 0 then some (fmt.sprintf_x lo, none)
            else some (fmt.sprintf_x_016x hi lo, none)
  else
    match strconv.ParseUint s with
    | (_, some err) => some ([], some err)
    | (lo, none) => some (fmt.sprintf_x lo, none)

/-! ## Letter case -/

/-- A byte with an ASCII lowercase letter replaced by its uppercase form. -/
def upperByte (c : UInt8) : UInt8 :=
  if 97 ≤ c.toNat ∧ c.toNat ≤ 122 then UInt8.ofNat (c.toNat - 32) else c

/-- A byte with an ASCII uppercase letter replaced by its lowercase form. -/
def lowerByte (c : UInt8) : UInt8 :=
  if 65 ≤ c.toNat ∧ c.toNat ≤ 90 then UInt8.ofNat (c.toNat + 32) else c

/-- A string with its (ASCII) letters upper-cased; other bytes are kept. -/
def toUpper (s : GoString) : GoString := s.map upperByte

/-- A string with its (ASCII) letters lower-cased; other bytes are kept. -/
def toLower (s : GoString) : GoString := s.map lowerByte

/-! ## Endpoints and the `%s:%d` format -/

namespace fmt

/-- The base-10 loop of `fmtInteger`: `for u >= 10 { i--; next := u / 10;
buf[i] = byte('0' + u - next*10); u = next }` followed by `i--; buf[i] = digits[u]`. -/
def decLoop : Nat → Nat → GoString → GoString
  | 0, _, buf => buf
  | slots + 1, u, buf =>
    if u ≥ 10 then
      let next := u / 10
      decLoop slots next (UInt8.ofNat ((48 + u - next * 10) % 2 ^ 64) :: buf)
    else ldigits.getD u 0 :: buf

/-- The method `fmtInteger(u, 10, true, 'd', ldigits)` for the verb `%d` without flags, on the
64-bit integer `n`: `u` is the `uint64` holding `n`, negated modulo `2^64` when `n` is
negative, and the sign is written in front of the digits. -/
def fmtIntegerDec (n : Int) : GoString :=
  let u0 := (n % 2 ^ 64).toNat
  let negative : Bool := decide (n < 0)
  let u := if negative then (2 ^ 64 - u0) % 2 ^ 64 else u0
  let buf := decLoop 68 u []
  if negative then 45 :: buf else buf

/-- The call `fmt.Sprintf("%s:%d", ip, port)`. -/
def sprintf_s_d (ip : GoString) (port : Int) : GoString :=
  ip ++ str ":" ++ fmtIntegerDec port

end fmt

/-- The method `func (e *endpoint) Host() string`. -/
def endpoint.Host (e : endpoint) : GoString :=
  if e.Port ≠ 0 then fmt.sprintf_s_d e.Ipv4 e.Port else e.Ipv4

/-- The method `func (e *endpoint) Name() string`. -/
def endpoint.Name (e : endpoint) : GoString := e.ServiceName

/-- The decimal rendering of an integer: the minimal decimal numeral of `n` when `n` is not
negative, and otherwise `-` followed by the minimal decimal numeral of `-n`. -/
def SignedDecimal (t : GoString) (n : Int) : Prop :=
  (0 ≤ n ∧ MinimalDecimal t n.toNat) ∨
    (n < 0 ∧ t.head? = some 45 ∧ MinimalDecimal t.tail (-n).toNat)

instance (t : GoString) (n : Int) : Decidable (SignedDecimal t n) := by
  unfold SignedDecimal; infer_instance

/-! ## Annotations -/

/-- The method `func (a *annotation) Value() string`. -/
def annotation.Value (a : annotation) : GoString := a.Val

/-- The method `func (a *annotation) Host() codec.Endpoint`: the endpoint pointer of the
annotation. -/
def annotation.Host (a : annotation) : Option endpoint := a.Endpoint

/-- The method `func (b *binaryAnnotation) Key() string`. -/
def binaryAnnotation.Key (b : binaryAnnotation) : GoString := b.K

/-- The method `func (b *binaryAnnotation) Value() string`. -/
def binaryAnnotation.Value (b : binaryAnnotation) : GoString := b.V

/-- The method `func (b *binaryAnnotation) Host() codec.Endpoint`. -/
def binaryAnnotation.Host (b : binaryAnnotation) : Option endpoint := b.Endpoint

/-- What `Annotations()` and `BinaryAnnotations()` return: the slice `res` of interface
values, each holding a pointer (`none` is the `nil` interface), and the memory `mem` in which
the variables whose address was taken live on, indexed by address. -/
structure Adapted (α : Type) where
  res : List (Option Ptr)
  mem : List α

/-- The loop `for i, a := range xs { res[i] = &a }` of `Annotations` and
`BinaryAnnotations`. As in `decodeLoop`, the iteration variable `a` is one variable for the
whole statement (the semantics of `for` before Go 1.22); `aAddr` is its address. -/
def rangeLoop {α : Type} (aAddr : Ptr) : List α → Nat → List α → List (Option Ptr) →
    List α × List (Option Ptr)
  | [], _, mem, res => (mem, res)
  | x :: rest, i, mem, res =>
    rangeLoop aAddr rest (i + 1) (mem.set aAddr x) (res.set i (some aAddr))

/-- The method `func (s *span) Annotations() []codec.Annotation`. -/
def span.Annotations (s : span) : Adapted annotation :=
  let res := List.replicate s.Anno.length none
  let out := rangeLoop 0 s.Anno 0 [ annotation.zero] res
  ⟨out.2, out.1⟩

/-- The method `func (s *span) BinaryAnnotations() []codec.BinaryAnnotation`. -/
def span.BinaryAnnotations (s : span) : Adapted binaryAnnotation :=
  let res := List.replicate s.BAnno.length none
  let out := rangeLoop 0 s.BAnno 0 [ binaryAnnotation.zero] res
  ⟨out.2, out.1⟩

/-- The value that the `i`-th returned interface value points to. -/
def Adapted.at {α : Type} (d : Adapted α) (i : Nat) : Option α :=
  match d.res.get? i with
  | some (some p) => d.mem.get? p
  | _ => none

/-- An example record with two annotations, `"cs"` and `"cr"`, and two binary annotations,
`("k1", "v1")` and `("k2", "v2")`. -/
def twoAnnotationSpan : span :=
  { span.zero with
    TraceID := str "1"
    ID := str "1"
    Anno := [⟨none, 1, str "cs"⟩, ⟨none, 2, str "cr"⟩]
    BAnno := [⟨str "k1", str "v1", none⟩, ⟨str "k2", str "v2", none⟩] }

/-- Two results agree: both are successes with the same value, or both are failures. -/
def SameResult {α : Type} (r r' : α × Option Error) : Prop :=
  (r.2 = none ∧ r'.2 = none ∧ r.1 = r'.1) ∨ (r.2 ≠ none ∧ r'.2 ≠ none)

/-- An example body, the JSON text
`[{"traceId":"zz","name":"a","id":"1"},{"traceId":"1","name":"b","id":"2"}]`: two span
objects, the first with a `traceId` that is not hexadecimal. -/
def badFirstBody : JSONValue :=
  .arr
    [.obj [(str "traceId", .str (str "zz")), (str "name", .str (str "a")),
      (str "id", .str (str "1"))],
     .obj [(str "traceId", .str (str "1")), (str "name", .str (str "b")),
      (str "id", .str (str "2"))]]

/-! ## Lemmas on digits -/

set_option maxRecDepth 100000 in
theorem lor32 : ∀ n < 256, (n ||| 0x20) = if n / 32 % 2 = 1 then n else n + 32 := by
  decide

theorem digitOf_of_hex (c : UInt8) (d : Nat) (h : hexDigitValue c = some d) :
    strconv.digitOf c = some d ∧ d < 16 := by
  have hc : c.toNat < 256 := UInt8.toNat_lt_size c
  unfold hexDigitValue at h
  unfold strconv.digitOf strconv.lower
  rw [lor32 _ hc]
  split_ifs at h ⊢ <;> simp_all <;> omega

theorem hex_of_digitOf (c : UInt8) (d : Nat) (h : strconv.digitOf c = some d) (hd : d < 16) :
    hexDigitValue c = some d := by
  have hc : c.toNat < 256 := UInt8.toNat_lt_size c
  unfold strconv.digitOf strconv.lower at h
  unfold hexDigitValue
  rw [lor32 _ hc] at h
  generalize c.toNat = n at *
  split_ifs at h ⊢ <;> simp only [Option.some.injEq, reduceCtorEq] at h ⊢ <;> omega

/-! ## Lemmas on numerals -/

theorem numeralFrom_cons (b : Nat) (dv : UInt8 → Option Nat) (n : Nat) (c : UInt8)
    (s : GoString) :
    numeralFrom b dv n (c :: s) = numeralFrom b dv (b * n + (dv c).getD 0) s := rfl

theorem numeralFrom_append (b : Nat) (dv : UInt8 → Option Nat) (n : Nat) (s t : GoString) :
    numeralFrom b dv n (s ++ t) = numeralFrom b dv (numeralFrom b dv n s) t := by
  unfold numeralFrom; exact List.foldl_append _ _ _ _

theorem numeralFrom_eq (b : Nat) (dv : UInt8 → Option Nat) (n : Nat) (s : GoString) :
    numeralFrom b dv n s = n * b ^ s.length + numeralFrom b dv 0 s := by
  induction s generalizing n with
  | nil => simp [numeralFrom]
  | cons c s ih =>
    rw [numeralFrom_cons, numeralFrom_cons, ih, ih (b * 0 + (dv c).getD 0)]
    simp only [List.length_cons, pow_succ]
    ring

theorem numeralFrom_lt (b : Nat) (dv : UInt8 → Option Nat) (s : GoString)
    (hdv : ∀ c, (dv c).getD 0 < b) : numeralFrom b dv 0 s < b ^ s.length := by
  induction s using List.reverseRecOn with
  | nil => simp [numeralFrom]
  | append_singleton s c ih =>
    rw [numeralFrom_append, numeralFrom_cons]
    simp only [numeralFrom, List.foldl_nil, List.length_append, List.length_singleton, pow_succ]
    have := hdv c
    have h1 : List.foldl (fun acc c => b * acc + (dv c).getD 0) 0 s + 1 ≤ b ^ s.length := ih
    nlinarith

theorem hexDigitValue_lt (c : UInt8) : (hexDigitValue c).getD 0 < 16 := by
  unfold hexDigitValue
  split_ifs <;> simp only [Option.getD_some, Option.getD_none] <;> omega

theorem decDigitValue_lt (c : UInt8) : (decDigitValue c).getD 0 < 10 := by
  unfold decDigitValue
  split_ifs <;> simp only [Option.getD_some, Option.getD_none] <;> omega

theorem hexValue_lt (s : GoString) : hexValue s < 16 ^ s.length :=
  numeralFrom_lt 16 hexDigitValue s hexDigitValue_lt

theorem hexValue_lt_of_length_le (s : GoString) (h : s.length ≤ 16) : hexValue s < 2 ^ 64 := by
  have h1 := hexValue_lt s
  have h2 : 16 ^ s.length ≤ 16 ^ 16 := Nat.pow_le_pow_right (by norm_num) h
  have h3 : (16 : Nat) ^ 16 = 2 ^ 64 := by norm_num
  omega

theorem hexValue_append (s t : GoString) :
    hexValue (s ++ t) = hexValue s * 16 ^ t.length + hexValue t := by
  unfold hexValue
  rw [numeralFrom_append, numeralFrom_eq]

theorem decValue_append (s t : GoString) :
    decValue (s ++ t) = decValue s * 10 ^ t.length + decValue t := by
  unfold decValue
  rw [numeralFrom_append, numeralFrom_eq]

theorem IsHexString_cons (c : UInt8) (s : GoString) :
    IsHexString (c :: s) ↔ (hexDigitValue c).isSome = true ∧ IsHexString s := by
  simp [IsHexString]

theorem IsHexString_append (s t : GoString) :
    IsHexString (s ++ t) ↔ IsHexString s ∧ IsHexString t := by
  simp only [IsHexString, List.mem_append]
  constructor
  · intro h; exact ⟨fun c hc => h c (Or.inl hc), fun c hc => h c (Or.inr hc)⟩
  · rintro ⟨h1, h2⟩ c (hc | hc)
    · exact h1 c hc
    · exact h2 c hc

theorem IsLowerHexString.isHex {s : GoString} (h : IsLowerHexString s) : IsHexString s := by
  intro c hc
  have := h c hc
  unfold hexDigitValue
  split_ifs <;> first | rfl | (exfalso; omega)

/-! ## Correctness of `strconv.ParseUint(s, 16, 64)` -/

theorem parseLoop_hex (s0 cs : GoString) (n : Nat) (hhex : IsHexString cs)
    (hlt : numeralFrom 16 hexDigitValue n cs < 2 ^ 64) :
    strconv.parseLoop s0 cs n = (numeralFrom 16 hexDigitValue n cs, none) := by
  induction cs generalizing n with
  | nil => rfl
  | cons c cs ih =>
    rw [IsHexString_cons] at hhex
    obtain ⟨d, hd⟩ := Option.isSome_iff_exists.mp hhex.1
    obtain ⟨hdig, hd16⟩ := digitOf_of_hex c d hd
    rw [numeralFrom_cons, hd] at hlt ⊢
    simp only [Option.getD_some] at hlt ⊢
    have hge : 16 * n + d ≤ numeralFrom 16 hexDigitValue (16 * n + d) cs := by
      rw [numeralFrom_eq]
      have : 1 ≤ 16 ^ cs.length := Nat.one_le_pow _ _ (by norm_num)
      nlinarith
    have h1 : (n * 16) % 2 ^ 64 = 16 * n := by
      rw [Nat.mod_eq_of_lt (by omega)]; ring
    have h2 : (16 * n + d) % 2 ^ 64 = 16 * n + d := Nat.mod_eq_of_lt (by omega)
    unfold strconv.parseLoop
    simp only [hdig, h1, h2, strconv.maxUint64]
    rw [if_neg (by omega), if_neg (by omega), if_neg (by omega)]
    exact ih _ hhex.2 hlt

theorem parseLoop_ok (s0 cs : GoString) (n v : Nat) (hn : n < 2 ^ 64)
    (h : strconv.parseLoop s0 cs n = (v, none)) :
    IsHexString cs ∧ v = numeralFrom 16 hexDigitValue n cs ∧ v < 2 ^ 64 := by
  induction cs generalizing n with
  | nil =>
    simp only [strconv.parseLoop, Prod.mk.injEq, and_true] at h
    subst h
    exact ⟨by simp [IsHexString], rfl, hn⟩
  | cons c cs ih =>
    unfold strconv.parseLoop at h
    cases hdig : strconv.digitOf c with
    | none => simp [hdig] at h
    | some d =>
      simp only [hdig, strconv.maxUint64] at h
      split_ifs at h with h16 hcut hov
      · simp at h
      · simp at h
      · simp at h
      · have hd : hexDigitValue c = some d := hex_of_digitOf c d hdig (by omega)
        have h1 : (n * 16) % 2 ^ 64 = 16 * n := by
          rw [Nat.mod_eq_of_lt (by omega)]; ring
        have h2 : (16 * n + d) % 2 ^ 64 = 16 * n + d := Nat.mod_eq_of_lt (by omega)
        rw [h1, h2] at h
        obtain ⟨ha, hb, hc⟩ := ih (16 * n + d) (by omega) h
        refine ⟨?_, ?_, hc⟩
        · rw [IsHexString_cons]; exact ⟨by simp [hd], ha⟩
        · rw [numeralFrom_cons, hd]; exact hb

theorem ParseUint_hex (s : GoString) (hne : s ≠ []) (hhex : IsHexString s)
    (hlt : hexValue s < 2 ^ 64) : strconv.ParseUint s = (hexValue s, none) := by
  unfold strconv.ParseUint
  rw [if_neg hne]
  exact parseLoop_hex s s 0 hhex hlt

theorem ParseUint_ok (s : GoString) (v : Nat) (h : strconv.ParseUint s = (v, none)) :
    s ≠ [] ∧ IsHexString s ∧ v = hexValue s ∧ v < 2 ^ 64 := by
  unfold strconv.ParseUint at h
  split_ifs at h with he
  · simp at h
  · exact ⟨he, parseLoop_ok s s 0 v (by norm_num) h⟩


/-! ## Correctness of the formatting routines -/

theorem IsLowerHexString_append (s t : GoString) :
    IsLowerHexString (s ++ t) ↔ IsLowerHexString s ∧ IsLowerHexString t := by
  simp only [IsLowerHexString, List.mem_append]
  constructor
  · intro h; exact ⟨fun c hc => h c (Or.inl hc), fun c hc => h c (Or.inr hc)⟩
  · rintro ⟨h1, h2⟩ c (hc | hc)
    · exact h1 c hc
    · exact h2 c hc

theorem IsDecimalString_append (s t : GoString) :
    IsDecimalString (s ++ t) ↔ IsDecimalString s ∧ IsDecimalString t := by
  simp only [IsDecimalString, List.mem_append]
  constructor
  · intro h; exact ⟨fun c hc => h c (Or.inl hc), fun c hc => h c (Or.inr hc)⟩
  · rintro ⟨h1, h2⟩ c (hc | hc)
    · exact h1 c hc
    · exact h2 c hc

theorem ldigits_spec : ∀ d < 16,
    hexDigitValue (fmt.ldigits.getD d 0) = some d ∧ IsLowerHexString [fmt.ldigits.getD d 0] ∧
      (fmt.ldigits.getD d 0 = 48 ↔ d = 0) := by
  decide

theorem digits_spec : ∀ d < 10,
    decDigitValue (strconv.digits.getD d 0) = some d ∧
      (strconv.digits.getD d 0 = 48 ↔ d = 0) := by
  decide

/-- The hexadecimal loop writes, in front of the buffer, the minimal lowercase numeral of
`u`, of at most `k` digits when `u < 16 ^ k`. -/
theorem hexLoop_spec (slots u : Nat) (buf : GoString) (hs : 0 < slots)
    (hu : u < 16 ^ slots) :
    ∃ ds, fmt.hexLoop slots u buf = ds ++ buf ∧ MinimalLowerHex ds u ∧
      (u = 0 → ds = [48]) ∧ ∀ k, 0 < k → u < 16 ^ k → ds.length ≤ k := by
  induction slots generalizing u buf with
  | zero => omega
  | succ slots ih =>
    unfold fmt.hexLoop
    by_cases h16 : u ≥ 16
    · rw [if_pos h16]
      have hshift : u >>> 4 = u / 16 := by
        rw [Nat.shiftRight_eq_div_pow]
      have hland : u &&& 0xF = u % 16 := by
        have := Nat.and_pow_two_sub_one_eq_mod u 4
        simpa using this
      rw [hshift, hland]
      have hslots : 0 < slots := by
        rcases Nat.eq_zero_or_pos slots with h0 | h0
        · subst h0
          have : u < 16 := by simpa using hu
          omega
        · exact h0
      have hq : u / 16 < 16 ^ slots := by
        rw [pow_succ] at hu
        exact Nat.div_lt_of_lt_mul (by omega)
      obtain ⟨ds, hds, ⟨hlow, hval, hne, hhead⟩, -, hlen⟩ :=
        ih (u / 16) (fmt.ldigits.getD (u % 16) 0 :: buf) hslots hq
      obtain ⟨hdv, hdl, -⟩ := ldigits_spec (u % 16) (Nat.mod_lt _ (by norm_num))
      refine ⟨ds ++ [fmt.ldigits.getD (u % 16) 0], by rw [hds, List.append_assoc]; rfl,
        ⟨?_, ?_, ?_, ?_⟩, ?_, ?_⟩
      · exact (IsLowerHexString_append _ _).mpr ⟨hlow, hdl⟩
      · rw [hexValue_append, hval]
        simp only [hexValue, numeralFrom, List.foldl_cons, List.foldl_nil, hdv,
          Option.getD_some, List.length_singleton]
        omega
      · simp [hne]
      · intro hh
        rw [List.head?_append_of_ne_nil _ hne] at hh
        have h1 := hhead hh
        rw [h1] at hval
        have h48 : hexValue [48] = 0 := by decide
        omega
      · intro h0; omega
      · intro k hk huk
        have hk2 : u / 16 < 16 ^ (k - 1) := by
          obtain ⟨j, rfl⟩ : ∃ j, k = j + 1 := ⟨k - 1, by omega⟩
          rw [pow_succ] at huk
          exact Nat.div_lt_of_lt_mul (by simpa [Nat.mul_comm] using huk)
        have hk1 : 0 < k - 1 := by
          rcases Nat.eq_zero_or_pos (k - 1) with h0 | h0
          · rw [h0] at hk2
            have : u / 16 < 1 := by simpa using hk2
            omega
          · exact h0
        have := hlen (k - 1) hk1 hk2
        simp only [List.length_append, List.length_singleton]
        omega
    · rw [if_neg h16]
      obtain ⟨hdv, hdl, hz⟩ := ldigits_spec u (by omega)
      refine ⟨[fmt.ldigits.getD u 0], rfl, ⟨hdl, ?_, by simp, ?_⟩, ?_, ?_⟩
      · simp only [hexValue, numeralFrom, List.foldl_cons, List.foldl_nil, hdv,
          Option.getD_some]
        omega
      · intro hh
        simp only [List.head?_cons, Option.some.injEq] at hh
        rw [hh]
      · intro h0; subst h0; rfl
      · intro k hk _; simpa using hk


/-- The decimal loop writes, in front of the buffer, the minimal decimal numeral of `u`. -/
theorem formatLoop_spec (slots u : Nat) (buf : GoString) (hs : 0 < slots)
    (hu : u < 10 ^ slots) :
    ∃ ds, strconv.formatLoop slots u buf = ds ++ buf ∧ MinimalDecimal ds u ∧
      (u = 0 → ds = [48]) := by
  induction slots generalizing u buf with
  | zero => omega
  | succ slots ih =>
    unfold strconv.formatLoop
    by_cases h10 : u ≥ 10
    · rw [if_pos h10]
      have hrem : u - u / 10 * 10 = u % 10 := by omega
      simp only [hrem]
      have hslots : 0 < slots := by
        rcases Nat.eq_zero_or_pos slots with h0 | h0
        · subst h0
          have : u < 10 := by simpa using hu
          omega
        · exact h0
      have hq : u / 10 < 10 ^ slots := by
        rw [pow_succ] at hu
        exact Nat.div_lt_of_lt_mul (by omega)
      obtain ⟨ds, hds, ⟨hdec, hval, hne, hhead⟩, -⟩ :=
        ih (u / 10) (strconv.digits.getD (u % 10) 0 :: buf) hslots hq
      obtain ⟨hdv, -⟩ := digits_spec (u % 10) (Nat.mod_lt _ (by norm_num))
      refine ⟨ds ++ [strconv.digits.getD (u % 10) 0], by rw [hds, List.append_assoc]; rfl,
        ⟨?_, ?_, ?_, ?_⟩, ?_⟩
      · refine (IsDecimalString_append _ _).mpr ⟨hdec, ?_⟩
        intro c hc
        rw [List.mem_singleton] at hc
        rw [hc, hdv]; rfl
      · rw [decValue_append, hval]
        simp only [decValue, numeralFrom, List.foldl_cons, List.foldl_nil, hdv,
          Option.getD_some, List.length_singleton]
        omega
      · simp [hne]
      · intro hh
        rw [List.head?_append_of_ne_nil _ hne] at hh
        have h1 := hhead hh
        rw [h1] at hval
        have h48 : decValue [48] = 0 := by decide
        omega
      · intro h0; omega
    · rw [if_neg h10]
      obtain ⟨hdv, hz⟩ := digits_spec u (by omega)
      refine ⟨[strconv.digits.getD u 0], rfl, ⟨?_, ?_, by simp, ?_⟩, ?_⟩
      · intro c hc
        rw [List.mem_singleton] at hc
        rw [hc, hdv]; rfl
      · simp only [decValue, numeralFrom, List.foldl_cons, List.foldl_nil, hdv,
          Option.getD_some]
        omega
      · intro hh
        simp only [List.head?_cons, Option.some.injEq] at hh
        rw [hh]
      · intro h0; subst h0; rfl

/-- The result of `strconv.FormatUint(v, 10)` is the minimal decimal numeral of `v`. -/
theorem FormatUint_spec (v : Nat) (hv : v < 2 ^ 64) :
    MinimalDecimal (strconv.FormatUint v) v ∧ (v = 0 → strconv.FormatUint v = [48]) := by
  obtain ⟨ds, hds, hmin, hz⟩ := formatLoop_spec 65 v [] (by norm_num)
    (lt_trans hv (by norm_num))
  unfold strconv.FormatUint
  rw [hds, List.append_nil]
  exact ⟨hmin, hz⟩

/-- The result of `fmt.Sprintf("%x", v)` is the minimal lowercase hexadecimal numeral of `v`. -/
theorem sprintf_x_spec (v : Nat) (hv : v < 2 ^ 64) :
    MinimalLowerHex (fmt.sprintf_x v) v ∧ (fmt.sprintf_x v).length ≤ 16 := by
  obtain ⟨ds, hds, hmin, -, hlen⟩ := hexLoop_spec 68 v [] (by norm_num)
    (lt_trans hv (by norm_num))
  unfold fmt.sprintf_x fmt.fmtInteger fmt.zeroPad
  rw [hds, List.append_nil]
  simp only [Nat.zero_sub, List.replicate_zero, List.nil_append]
  exact ⟨hmin, hlen 16 (by norm_num) (lt_of_lt_of_le hv (by norm_num))⟩

theorem hexValue_replicate_zero (m : Nat) : hexValue (List.replicate m 48) = 0 := by
  induction m with
  | zero => rfl
  | succ m ih =>
    rw [List.replicate_succ', hexValue_append, ih]
    decide

/-- The result of the verb `%016x` on `v` is `v` in exactly 16 lowercase hexadecimal digits. -/
theorem fmtInteger_16_spec (v : Nat) (hv : v < 2 ^ 64) :
    PaddedLowerHex16 (fmt.fmtInteger v 16) v := by
  obtain ⟨ds, hds, ⟨hlow, hval, -⟩, -, hlen⟩ := hexLoop_spec 68 v [] (by norm_num)
    (lt_trans hv (by norm_num))
  have hl : ds.length ≤ 16 := hlen 16 (by norm_num) (lt_of_lt_of_le hv (by norm_num))
  unfold fmt.fmtInteger fmt.zeroPad
  rw [hds, List.append_nil]
  refine ⟨?_, ?_, ?_⟩
  · simp only [List.length_append, List.length_replicate]; omega
  · refine (IsLowerHexString_append _ _).mpr ⟨?_, hlow⟩
    intro c hc
    rw [List.eq_of_mem_replicate hc]
    decide
  · rw [hexValue_append, hexValue_replicate_zero, hval]; omega


/-! ## The shape of `TraceIDFromString` and `IDFromString` results -/

theorem highPart_lowPart (s : GoString) : highPart s ++ lowPart s = s :=
  List.take_append_drop _ _

theorem highPart_of_short (s : GoString) (h : s.length ≤ 16) :
    highPart s = [] ∧ lowPart s = s := by
  have h0 : s.length - 16 = 0 := by omega
  simp [highPart, lowPart, h0]

theorem length_parts_of_long (s : GoString) (h : 16 < s.length) :
    (highPart s).length = s.length - 16 ∧ (lowPart s).length = 16 := by
  simp only [highPart, lowPart, List.length_take, List.length_drop]
  omega

theorem TraceIDFromString_short (s t : GoString) (hlen : s.length ≤ 16)
    (h : TraceIDFromString s = (t, none)) :
    ∃ lo, strconv.ParseUint s = (lo, none) ∧ t = fmt.sprintf_x lo := by
  unfold TraceIDFromString at h
  rw [if_neg (by omega), if_neg (by omega)] at h
  rcases hp : strconv.ParseUint s with ⟨lo, _ | err⟩
  · simp only [hp, Prod.mk.injEq, and_true] at h
    exact ⟨lo, rfl, h.symm⟩
  · simp [hp] at h

theorem TraceIDFromString_long (s t : GoString) (hlen : 16 < s.length)
    (h : TraceIDFromString s = (t, none)) :
    s.length ≤ 32 ∧ ∃ hi lo, strconv.ParseUint (highPart s) = (hi, none) ∧
      strconv.ParseUint (lowPart s) = (lo, none) ∧
      t = if hi = 0 then fmt.sprintf_x lo else fmt.sprintf_x_016x hi lo := by
  unfold TraceIDFromString at h
  by_cases h32 : s.length > 32
  · rw [if_pos h32] at h; simp at h
  · rw [if_neg h32, if_pos hlen] at h
    refine ⟨by omega, ?_⟩
    simp only [] at h
    rcases hp : strconv.ParseUint (List.take (s.length - 16) s) with ⟨hi, _ | err⟩
    · rcases hq : strconv.ParseUint (List.drop (s.length - 16) s) with ⟨lo, _ | err⟩
      · simp only [hp, hq] at h
        refine ⟨hi, lo, hp, hq, ?_⟩
        split_ifs at h ⊢ <;> simp only [Prod.mk.injEq, and_true] at h <;> exact h.symm
      · simp [hp, hq] at h
    · simp [hp] at h

theorem hexValue_zeros (s : GoString) (h : ∀ c ∈ s, c = 48) : hexValue s = 0 := by
  have : s = List.replicate s.length 48 := List.eq_replicate_iff.mpr ⟨rfl, h⟩
  rw [this]
  exact hexValue_replicate_zero _


/-! ## Lemmas on `json.Unmarshal` -/

theorem saveError_eq_none (a b : Option Error) :
    json.saveError a b = none ↔ a = none ∧ b = none := by
  cases a <;> simp [json.saveError]

theorem saveError_ne_none_left (a b : Option Error) (h : a ≠ none) :
    json.saveError a b ≠ none := by
  rw [Ne, saveError_eq_none]; tauto

theorem saveError_ne_none_right (a b : Option Error) (h : b ≠ none) :
    json.saveError a b ≠ none := by
  rw [Ne, saveError_eq_none]; tauto

theorem memberFold_cons {α : Type} (step : α → GoString × JSONValue → α × Option Error)
    (st : α × Option Error) (m : GoString × JSONValue) (ms : List (GoString × JSONValue)) :
    json.memberFold step st (m :: ms) =
      json.memberFold step ((step st.1 m).1, json.saveError st.2 (step st.1 m).2) ms := rfl

theorem memberFold_append {α : Type} (step : α → GoString × JSONValue → α × Option Error)
    (st : α × Option Error) (ms₁ ms₂ : List (GoString × JSONValue)) :
    json.memberFold step st (ms₁ ++ ms₂) =
      json.memberFold step (json.memberFold step st ms₁) ms₂ := by
  unfold json.memberFold; exact List.foldl_append _ _ _ _

theorem memberFold_err_keep {α : Type} (step : α → GoString × JSONValue → α × Option Error)
    (ms : List (GoString × JSONValue)) (st : α × Option Error) (h : st.2 ≠ none) :
    (json.memberFold step st ms).2 ≠ none := by
  induction ms generalizing st with
  | nil => exact h
  | cons m ms ih =>
    rw [memberFold_cons]
    exact ih _ (saveError_ne_none_left _ _ h)

theorem memberFold_err_none {α : Type} (step : α → GoString × JSONValue → α × Option Error)
    (ms : List (GoString × JSONValue)) (st : α × Option Error) (h : st.2 = none)
    (hok : ∀ m ∈ ms, ∀ c, (step c m).2 = none) : (json.memberFold step st ms).2 = none := by
  induction ms generalizing st with
  | nil => exact h
  | cons m ms ih =>
    rw [memberFold_cons]
    refine ih _ ?_ (fun m' hm' => hok m' (List.mem_cons_of_mem _ hm'))
    exact (saveError_eq_none _ _).mpr ⟨h, hok m (List.mem_cons_self _ _) _⟩

theorem memberFold_err_of_bad {α : Type}
    (step : α → GoString × JSONValue → α × Option Error)
    (ms₁ ms₂ : List (GoString × JSONValue)) (m : GoString × JSONValue)
    (st : α × Option Error) (hbad : ∀ c, (step c m).2 ≠ none) :
    (json.memberFold step st (ms₁ ++ m :: ms₂)).2 ≠ none := by
  rw [memberFold_append, memberFold_cons]
  exact memberFold_err_keep _ _ _ (saveError_ne_none_right _ _ (hbad _))

theorem decodeStruct_obj {α : Type} (step : α → GoString × JSONValue → α × Option Error)
    (cur : α) (ms : List (GoString × JSONValue)) :
    json.decodeStruct step cur (.obj ms) = json.memberFold step (cur, none) ms := rfl

theorem decodeElems_length {α : Type} (zero : α) (dec : α → JSONValue → α × Option Error)
    (cur : List α) (es : List JSONValue) :
    (json.decodeElems zero dec cur es).1.length = es.length := by
  induction es generalizing cur with
  | nil => rfl
  | cons e es ih => simp [json.decodeElems, ih]

theorem decodeElems_err_none {α : Type} (zero : α) (dec : α → JSONValue → α × Option Error)
    (cur : List α) (es : List JSONValue) (hok : ∀ e ∈ es, ∀ c, (dec c e).2 = none) :
    (json.decodeElems zero dec cur es).2 = none := by
  induction es generalizing cur with
  | nil => rfl
  | cons e es ih =>
    simp only [json.decodeElems]
    exact (saveError_eq_none _ _).mpr ⟨hok e (List.mem_cons_self _ _) _,
      ih _ (fun e' he' => hok e' (List.mem_cons_of_mem _ he'))⟩

theorem decodeElems_err_of_bad {α : Type} (zero : α)
    (dec : α → JSONValue → α × Option Error)
    (cur : List α) (pre post : List JSONValue) (e : JSONValue)
    (hbad : ∀ c, (dec c e).2 ≠ none) :
    (json.decodeElems zero dec cur (pre ++ e :: post)).2 ≠ none := by
  induction pre generalizing cur with
  | nil =>
    simp only [List.nil_append, json.decodeElems]
    exact saveError_ne_none_left _ _ (hbad _)
  | cons p pre ih =>
    simp only [List.cons_append, json.decodeElems]
    exact saveError_ne_none_right _ _ (ih _)

/-! ## Lemmas on `Decode` -/

theorem decodeLoop_mem (a : Ptr) (spans : List span) (i : Nat) (mem : List span)
    (res : List (Option Ptr)) (x : span) (hx : spans.getLast? = some x) :
    (decodeLoop a spans i mem res).1 = mem.set a x := by
  induction spans generalizing i mem res with
  | nil => simp at hx
  | cons y rest ih =>
    unfold decodeLoop
    cases rest with
    | nil =>
      simp only [List.getLast?_singleton, Option.some.injEq] at hx
      subst hx; rfl
    | cons z rest' =>
      rw [List.getLast?_cons_cons] at hx
      rw [ih _ _ _ hx, List.set_set]

theorem decodeLoop_res_length (a : Ptr) (spans : List span) (i : Nat) (mem : List span)
    (res : List (Option Ptr)) : (decodeLoop a spans i mem res).2.length = res.length := by
  induction spans generalizing i mem res with
  | nil => rfl
  | cons y rest ih =>
    unfold decodeLoop
    rw [ih, List.length_set]

theorem decodeLoop_res_get (a : Ptr) (spans : List span) (i : Nat) (mem : List span)
    (res : List (Option Ptr)) (j : Nat) (hj : j < res.length) :
    (decodeLoop a spans i mem res).2.get? j =
      if i ≤ j ∧ j < i + spans.length then some (some a) else res.get? j := by
  induction spans generalizing i mem res with
  | nil =>
    have : ¬ (i ≤ j ∧ j < i + 0) := by omega
    simp only [decodeLoop, List.length_nil, if_neg this]
  | cons y rest ih =>
    unfold decodeLoop
    rw [ih _ _ _ (by rw [List.length_set]; exact hj)]
    simp only [List.length_cons, List.get?_eq_getElem?, List.getElem?_set]
    by_cases h1 : i = j
    · subst h1
      rw [if_neg (by omega), if_pos rfl, if_pos hj, if_pos (by omega)]
    · rw [if_neg h1]
      by_cases h2 : i + 1 ≤ j ∧ j < i + 1 + rest.length
      · rw [if_pos h2, if_pos (by omega)]
      · rw [if_neg h2, if_neg (by omega)]

/-- What `Decode` returns when `json.Unmarshal` succeeds with the records `spans`: no error
and one entry per record, but every entry holds the address of the one iteration variable,
which is left with the last record. -/
theorem Decode_of_unmarshal (octets : Option JSONValue) (spans : List span)
    (h : json.Unmarshal octets [] = (spans, none)) :
    (Decode octets).err = none ∧ (Decode octets).res.length = spans.length ∧
      ∀ i, i < spans.length → (Decode octets).at i = spans.getLast? := by
  have hd : Decode octets = ⟨(decodeLoop 0 spans 0 [span.zero]
      (List.replicate spans.length none)).2, none,
      (decodeLoop 0 spans 0 [span.zero] (List.replicate spans.length none)).1⟩ := by
    unfold Decode; rw [h]
  rw [hd]
  refine ⟨rfl, by rw [decodeLoop_res_length, List.length_replicate], ?_⟩
  intro i hi
  unfold Decoded.at
  simp only []
  rw [decodeLoop_res_get _ _ _ _ _ _ (by rw [List.length_replicate]; exact hi),
    if_pos (by omega)]
  obtain ⟨x, hx⟩ : ∃ x, spans.getLast? = some x := by
    cases spans with
    | nil => simp at hi
    | cons y r => exact ⟨_, List.getLast?_eq_getLast _ (by simp)⟩
  rw [decodeLoop_mem _ _ _ _ _ x hx, hx]
  rfl

/-- The method `Decode` fails exactly when `json.Unmarshal` does, and with the same error. -/
theorem Decode_err (octets : Option JSONValue) :
    (Decode octets).err = (json.Unmarshal octets []).2 := by
  unfold Decode
  rcases json.Unmarshal octets [] with ⟨spans, _ | e⟩ <;> rfl

theorem wrapInt64_of_range (x : Int) (h1 : -2 ^ 63 ≤ x) (h2 : x < 2 ^ 63) :
    wrapInt64 x = x := by
  unfold wrapInt64
  rw [Int.emod_eq_of_lt (by omega) (by omega)]
  omega

/-! ## Uniqueness of minimal numerals -/

theorem hexValue_cons (c : UInt8) (s : GoString) :
    hexValue (c :: s) = (hexDigitValue c).getD 0 * 16 ^ s.length + hexValue s := by
  unfold hexValue
  rw [numeralFrom_cons, numeralFrom_eq]
  simp

theorem toNat_inj_byte (c d : UInt8) (h : c.toNat = d.toNat) : c = d :=
  UInt8.ext_iff.mpr h

theorem digit_split (P a b x y : Nat) (hx : x < P) (hy : y < P)
    (h : a * P + x = b * P + y) : a = b ∧ x = y := by
  have hab : a = b := by
    rcases Nat.lt_trichotomy a b with h1 | h1 | h1
    · have := Nat.mul_le_mul_right P (Nat.succ_le_of_lt h1)
      rw [Nat.succ_mul] at this
      omega
    · exact h1
    · have := Nat.mul_le_mul_right P (Nat.succ_le_of_lt h1)
      rw [Nat.succ_mul] at this
      omega
  subst hab
  exact ⟨rfl, by omega⟩

theorem lowerHex_digit_inj (c d : UInt8)
    (hc : (48 ≤ c.toNat ∧ c.toNat ≤ 57) ∨ (97 ≤ c.toNat ∧ c.toNat ≤ 102))
    (hd : (48 ≤ d.toNat ∧ d.toNat ≤ 57) ∨ (97 ≤ d.toNat ∧ d.toNat ≤ 102))
    (h : (hexDigitValue c).getD 0 = (hexDigitValue d).getD 0) : c = d := by
  apply toNat_inj_byte
  unfold hexDigitValue at h
  split_ifs at h <;> simp only [Option.getD_some, Option.getD_none] at h <;> omega

theorem IsLowerHexString_cons (c : UInt8) (s : GoString) :
    IsLowerHexString (c :: s) ↔
      ((48 ≤ c.toNat ∧ c.toNat ≤ 57) ∨ (97 ≤ c.toNat ∧ c.toNat ≤ 102)) ∧
        IsLowerHexString s := by
  simp [IsLowerHexString]

/-- Two lowercase hexadecimal strings of the same length and the same value are equal. -/
theorem hexValue_inj_of_length (s t : GoString) (hlen : s.length = t.length)
    (hs : IsLowerHexString s) (ht : IsLowerHexString t) (hv : hexValue s = hexValue t) :
    s = t := by
  induction s generalizing t with
  | nil =>
    cases t with
    | nil => rfl
    | cons d t => simp at hlen
  | cons c s ih =>
    cases t with
    | nil => simp at hlen
    | cons d t =>
      simp only [List.length_cons, Nat.add_right_cancel_iff] at hlen
      rw [IsLowerHexString_cons] at hs ht
      rw [hexValue_cons, hexValue_cons, hlen] at hv
      have h1 := hexValue_lt s
      have h2 := hexValue_lt t
      rw [hlen] at h1
      obtain ⟨hd, hx⟩ := digit_split _ _ _ _ _ h1 h2 hv
      rw [lowerHex_digit_inj c d hs.1 ht.1 hd, ih t hlen hs.2 ht.2 hx]

/-- A lowercase hexadecimal string that does not start with `0` has a value of at least
`16 ^ (length - 1)`. -/
theorem pow_le_hexValue (c : UInt8) (s : GoString) (hs : IsLowerHexString (c :: s))
    (hc : c ≠ 48) : 16 ^ s.length ≤ hexValue (c :: s) := by
  rw [hexValue_cons]
  rw [IsLowerHexString_cons] at hs
  have h1 : 1 ≤ (hexDigitValue c).getD 0 := by
    have hne : c.toNat ≠ 48 := fun h => hc (toNat_inj_byte c 48 h)
    unfold hexDigitValue
    split_ifs <;> simp only [Option.getD_some, Option.getD_none] <;> omega
  have := Nat.mul_le_mul_right (16 ^ s.length) h1
  omega

theorem MinimalLowerHex_zero (t : GoString) (h : MinimalLowerHex t 0) : t = [48] := by
  obtain ⟨hlow, hval, hne, hhead⟩ := h
  cases t with
  | nil => exact absurd rfl hne
  | cons c s =>
    by_cases hc : c = 48
    · exact hhead (by rw [hc]; rfl)
    · have h1 := pow_le_hexValue c s hlow hc
      have h2 : 1 ≤ 16 ^ s.length := Nat.one_le_pow _ _ (by norm_num)
      omega

theorem MinimalLowerHex_head (c : UInt8) (s : GoString) (v : Nat)
    (h : MinimalLowerHex (c :: s) v) (hv : v ≠ 0) : c ≠ 48 := by
  intro hc
  have h1 := h.2.2.2 (by rw [hc]; rfl)
  have h2 := h.2.1
  rw [h1] at h2
  have h48 : hexValue [48] = 0 := by decide
  omega

/-- The minimal lowercase hexadecimal numeral of a number is unique. -/
theorem MinimalLowerHex_unique (t u : GoString) (v : Nat) (ht : MinimalLowerHex t v)
    (hu : MinimalLowerHex u v) : t = u := by
  by_cases hv : v = 0
  · subst hv
    rw [MinimalLowerHex_zero t ht, MinimalLowerHex_zero u hu]
  · cases t with
    | nil => exact absurd rfl ht.2.2.1
    | cons c s =>
      cases u with
      | nil => exact absurd rfl hu.2.2.1
      | cons d r =>
        have h1 := pow_le_hexValue c s ht.1 (MinimalLowerHex_head c s v ht hv)
        have h2 := pow_le_hexValue d r hu.1 (MinimalLowerHex_head d r v hu hv)
        have h3 := hexValue_lt (c :: s)
        have h4 := hexValue_lt (d :: r)
        rw [ht.2.1] at h1 h3
        rw [hu.2.1] at h2 h4
        have hlen : s.length = r.length := by
          rcases Nat.lt_trichotomy s.length r.length with h | h | h
          · have : 16 ^ (c :: s).length ≤ 16 ^ r.length :=
              Nat.pow_le_pow_right (by norm_num) (by simpa using h)
            omega
          · exact h
          · have : 16 ^ (d :: r).length ≤ 16 ^ s.length :=
              Nat.pow_le_pow_right (by norm_num) (by simpa using h)
            omega
        exact hexValue_inj_of_length _ _ (by simp [hlen]) ht.1 hu.1
          (ht.2.1.trans hu.2.1.symm)

/-- The minimal numeral of a number is not longer than any non-empty string denoting it. -/
theorem MinimalLowerHex_length_le (t s : GoString) (v : Nat) (ht : MinimalLowerHex t v)
    (hs : s ≠ []) (hv : hexValue s = v) : t.length ≤ s.length := by
  have hpos : 1 ≤ s.length := by
    cases s with
    | nil => exact absurd rfl hs
    | cons c r => simp
  by_cases h0 : v = 0
  · subst h0
    rw [MinimalLowerHex_zero t ht]
    simpa using hpos
  · cases t with
    | nil => exact absurd rfl ht.2.2.1
    | cons c r =>
      have h1 := pow_le_hexValue c r ht.1 (MinimalLowerHex_head c r v ht h0)
      have h3 := hexValue_lt s
      rw [ht.2.1] at h1
      rw [hv] at h3
      by_contra hcon
      have : 16 ^ s.length ≤ 16 ^ r.length :=
        Nat.pow_le_pow_right (by norm_num) (by simp at hcon; omega)
      omega

/-! ## The canonical form produced by `TraceIDFromString` -/

theorem ne_nil_of_length_pos (s : GoString) (h : 0 < s.length) : s ≠ [] := by
  intro h0; rw [h0] at h; simp at h

/-- The result of `TraceIDFromString` on a non-empty hexadecimal string of at most 32 bytes,
in terms of the values of its two parts. -/
theorem TraceIDFromString_hex_eq (s : GoString) (hne : s ≠ []) (hhex : IsHexString s)
    (h32 : s.length ≤ 32) :
    TraceIDFromString s =
      (if hexValue (highPart s) = 0 then fmt.sprintf_x (hexValue (lowPart s))
        else fmt.sprintf_x_016x (hexValue (highPart s)) (hexValue (lowPart s)), none) ∧
      hexValue (highPart s) < 2 ^ 64 ∧ hexValue (lowPart s) < 2 ^ 64 := by
  by_cases hlen : s.length ≤ 16
  · have hv := hexValue_lt_of_length_le s hlen
    have hp := ParseUint_hex s hne hhex hv
    obtain ⟨hhi, hlo⟩ := highPart_of_short s hlen
    have hz : hexValue (highPart s) = 0 := by rw [hhi]; rfl
    rw [hz, hlo, if_pos rfl]
    refine ⟨?_, by norm_num, hv⟩
    unfold TraceIDFromString
    rw [if_neg (by omega), if_neg (by omega), hp]
  · have hlong : 16 < s.length := by omega
    obtain ⟨hl1, hl2⟩ := length_parts_of_long s hlong
    have hsplit := (IsHexString_append (highPart s) (lowPart s)).mp
      (by rw [highPart_lowPart]; exact hhex)
    have hv1 := hexValue_lt_of_length_le (highPart s) (by omega)
    have hv2 := hexValue_lt_of_length_le (lowPart s) (by omega)
    have hp := ParseUint_hex (highPart s) (ne_nil_of_length_pos _ (by omega)) hsplit.1 hv1
    have hq := ParseUint_hex (lowPart s) (ne_nil_of_length_pos _ (by omega)) hsplit.2 hv2
    refine ⟨?_, hv1, hv2⟩
    unfold highPart at hp
    unfold lowPart at hq
    unfold TraceIDFromString
    rw [if_neg (by omega), if_pos hlong]
    simp only [hp, hq, highPart, lowPart]
    split_ifs <;> rfl

theorem hexValue_parts (s : GoString) (h : 16 < s.length) :
    hexValue s = hexValue (highPart s) * 16 ^ 16 + hexValue (lowPart s) := by
  conv_lhs => rw [← highPart_lowPart s]
  rw [hexValue_append, (length_parts_of_long s h).2]

/-- The rendering chosen by `TraceIDFromString` for the halves `hi` and `lo` is the minimal
lowercase hexadecimal numeral of `hi * 16 ^ 16 + lo`. -/
theorem render_minimal (hi lo : Nat) (hhi : hi < 2 ^ 64) (hlo : lo < 2 ^ 64) :
    MinimalLowerHex
      (if hi = 0 then fmt.sprintf_x lo else fmt.sprintf_x_016x hi lo)
      (hi * 16 ^ 16 + lo) := by
  by_cases h0 : hi = 0
  · rw [if_pos h0, h0]
    simpa using (sprintf_x_spec lo hlo).1
  · rw [if_neg h0]
    obtain ⟨⟨ha1, ha2, ha3, ha4⟩, -⟩ := sprintf_x_spec hi hhi
    obtain ⟨hb1, hb2, hb3⟩ := fmtInteger_16_spec lo hlo
    have hx : fmt.sprintf_x hi = fmt.fmtInteger hi 0 := rfl
    unfold fmt.sprintf_x_016x
    rw [← hx]
    refine ⟨(IsLowerHexString_append _ _).mpr ⟨ha1, hb2⟩, ?_, ?_, ?_⟩
    · rw [hexValue_append, ha2, hb3, hb1]
    · simp [ha3]
    · intro hh
      rw [List.head?_append_of_ne_nil _ ha3] at hh
      have h1 := ha4 hh
      rw [h1] at ha2
      have h48 : hexValue [48] = 0 := by decide
      omega

/-- On every non-empty hexadecimal string of at most 32 bytes `TraceIDFromString` succeeds,
and its result is the minimal lowercase hexadecimal numeral of the number denoted. -/
theorem TraceIDFromString_canonical (s : GoString) (hne : s ≠ []) (hhex : IsHexString s)
    (h32 : s.length ≤ 32) :
    ∃ t, TraceIDFromString s = (t, none) ∧ MinimalLowerHex t (hexValue s) := by
  obtain ⟨heq, hv1, hv2⟩ := TraceIDFromString_hex_eq s hne hhex h32
  refine ⟨_, heq, ?_⟩
  have hval : hexValue s = hexValue (highPart s) * 16 ^ 16 + hexValue (lowPart s) := by
    by_cases hlen : s.length ≤ 16
    · obtain ⟨hhi, hlo⟩ := highPart_of_short s hlen
      rw [hhi, hlo]
      have : hexValue [] = 0 := rfl
      rw [this]; omega
    · exact hexValue_parts s (by omega)
  rw [hval]
  exact render_minimal _ _ hv1 hv2

/-- A successful call of `TraceIDFromString` has a non-empty hexadecimal input of at most 32
bytes, and a lowercase hexadecimal output of at most 32 bytes. -/
theorem TraceIDFromString_ok_input (s t : GoString) (h : TraceIDFromString s = (t, none)) :
    s ≠ [] ∧ IsHexString s ∧ s.length ≤ 32 := by
  by_cases hlen : s.length ≤ 16
  · obtain ⟨lo, hp, -⟩ := TraceIDFromString_short s t hlen h
    obtain ⟨h1, h2, -, -⟩ := ParseUint_ok s lo hp
    exact ⟨h1, h2, by omega⟩
  · obtain ⟨h32, hi, lo, hp, hq, -⟩ := TraceIDFromString_long s t (by omega) h
    obtain ⟨-, h2, -, -⟩ := ParseUint_ok _ hi hp
    obtain ⟨-, h4, -, -⟩ := ParseUint_ok _ lo hq
    refine ⟨ne_nil_of_length_pos s (by omega), ?_, h32⟩
    rw [← highPart_lowPart s]
    exact (IsHexString_append _ _).mpr ⟨h2, h4⟩

/-- A successful call of `IDFromString` returns a non-empty string. -/
theorem IDFromString_ok_ne_nil (s t : GoString) (h : IDFromString s = (t, none)) : t ≠ [] := by
  unfold IDFromString at h
  split_ifs at h with hlen
  · simp at h
  · rcases hp : strconv.ParseUint s with ⟨v, _ | err⟩
    · simp only [hp, Prod.mk.injEq, and_true] at h
      obtain ⟨-, -, -, hv⟩ := ParseUint_ok s v hp
      rw [← h]
      exact (FormatUint_spec v hv).1.2.2.1
    · simp [hp] at h

/-! ## Letter case -/

theorem ofNat_toNat_byte (c : UInt8) : UInt8.ofNat c.toNat = c := by
  apply toNat_inj_byte
  show c.toNat % 256 = c.toNat
  exact Nat.mod_eq_of_lt (UInt8.toNat_lt_size c)

set_option maxRecDepth 100000 in
theorem digitOf_case_table : ∀ n < 256,
    strconv.digitOf (upperByte (UInt8.ofNat n)) = strconv.digitOf (UInt8.ofNat n) ∧
      strconv.digitOf (lowerByte (UInt8.ofNat n)) = strconv.digitOf (UInt8.ofNat n) := by
  decide

theorem digitOf_upperByte (c : UInt8) : strconv.digitOf (upperByte c) = strconv.digitOf c := by
  have := (digitOf_case_table c.toNat (UInt8.toNat_lt_size c)).1
  rwa [ofNat_toNat_byte] at this

theorem digitOf_lowerByte (c : UInt8) : strconv.digitOf (lowerByte c) = strconv.digitOf c := by
  have := (digitOf_case_table c.toNat (UInt8.toNat_lt_size c)).2
  rwa [ofNat_toNat_byte] at this

theorem map_digitOf_toUpper (s : GoString) :
    (toUpper s).map strconv.digitOf = s.map strconv.digitOf := by
  unfold toUpper
  rw [List.map_map]
  exact List.map_congr_left (fun c _ => digitOf_upperByte c)

theorem map_digitOf_toLower (s : GoString) :
    (toLower s).map strconv.digitOf = s.map strconv.digitOf := by
  unfold toLower
  rw [List.map_map]
  exact List.map_congr_left (fun c _ => digitOf_lowerByte c)

theorem SameResult_cases {α : Type} (v v' : α) (e e' : Option Error)
    (h : SameResult (v, e) (v', e')) :
    (e = none ∧ e' = none ∧ v = v') ∨ ∃ x x', e = some x ∧ e' = some x' := by
  rcases h with ⟨h1, h2, h3⟩ | ⟨h1, h2⟩
  · exact Or.inl ⟨h1, h2, h3⟩
  · obtain ⟨x, hx⟩ := Option.ne_none_iff_exists'.mp h1
    obtain ⟨x', hx'⟩ := Option.ne_none_iff_exists'.mp h2
    exact Or.inr ⟨x, x', hx, hx'⟩

/-- The parsing loop gives agreeing results on two strings whose bytes have the same digit
values, whatever the strings quoted in the errors. -/
theorem parseLoop_congr (s0 s0' cs cs' : GoString) (n : Nat)
    (h : cs'.map strconv.digitOf = cs.map strconv.digitOf) :
    SameResult (strconv.parseLoop s0 cs n) (strconv.parseLoop s0' cs' n) := by
  induction cs generalizing cs' n with
  | nil =>
    have : cs' = [] := by simpa using h
    subst this
    exact Or.inl ⟨rfl, rfl, rfl⟩
  | cons c cs ih =>
    cases cs' with
    | nil => simp at h
    | cons c' cs' =>
      simp only [List.map_cons, List.cons.injEq] at h
      unfold strconv.parseLoop
      rw [h.1]
      cases strconv.digitOf c with
      | none => exact Or.inr ⟨by simp, by simp⟩
      | some d =>
        simp only []
        split_ifs
        · exact Or.inr ⟨by simp, by simp⟩
        · exact Or.inr ⟨by simp, by simp⟩
        · exact Or.inr ⟨by simp, by simp⟩
        · exact ih _ _ h.2

theorem ParseUint_congr (s s' : GoString)
    (h : s'.map strconv.digitOf = s.map strconv.digitOf) :
    SameResult (strconv.ParseUint s) (strconv.ParseUint s') := by
  unfold strconv.ParseUint
  by_cases hs : s = []
  · subst hs
    have : s' = [] := by simpa using h
    subst this
    exact Or.inr ⟨by simp, by simp⟩
  · have hs' : s' ≠ [] := by
      intro h0; subst h0
      exact hs (by simpa using h.symm)
    rw [if_neg hs, if_neg hs']
    exact parseLoop_congr s s' s s' 0 h

theorem IDFromString_congr (s s' : GoString)
    (h : s'.map strconv.digitOf = s.map strconv.digitOf) :
    SameResult (IDFromString s) (IDFromString s') := by
  have hlen : s'.length = s.length := by
    have := congrArg List.length h
    simpa using this
  unfold IDFromString
  rw [hlen]
  by_cases h16 : s.length > 16
  · rw [if_pos h16, if_pos h16]
    exact Or.inr ⟨by simp, by simp⟩
  · rw [if_neg h16, if_neg h16]
    rcases hp : strconv.ParseUint s with ⟨v, e⟩
    rcases hp' : strconv.ParseUint s' with ⟨v', e'⟩
    have hsame := ParseUint_congr s s' h
    rw [hp, hp'] at hsame
    rcases SameResult_cases _ _ _ _ hsame with ⟨h1, h2, h3⟩ | ⟨x, x', h1, h2⟩
    · subst h1 h2 h3
      exact Or.inl ⟨rfl, rfl, rfl⟩
    · subst h1 h2
      exact Or.inr ⟨by simp, by simp⟩

theorem TraceIDFromString_congr (s s' : GoString)
    (h : s'.map strconv.digitOf = s.map strconv.digitOf) :
    SameResult (TraceIDFromString s) (TraceIDFromString s') := by
  have hlen : s'.length = s.length := by
    have := congrArg List.length h
    simpa using this
  unfold TraceIDFromString
  rw [hlen]
  by_cases h32 : s.length > 32
  · rw [if_pos h32, if_pos h32]
    exact Or.inr ⟨by simp, by simp⟩
  · rw [if_neg h32, if_neg h32]
    by_cases h16 : s.length > 16
    · rw [if_pos h16, if_pos h16]
      simp only []
      have hhi := ParseUint_congr (s.take (s.length - 16)) (s'.take (s.length - 16))
        (by rw [List.map_take, List.map_take, h])
      have hlo := ParseUint_congr (s.drop (s.length - 16)) (s'.drop (s.length - 16))
        (by rw [List.map_drop, List.map_drop, h])
      rcases hp : strconv.ParseUint (s.take (s.length - 16)) with ⟨hi, e1⟩
      rcases hp' : strconv.ParseUint (s'.take (s.length - 16)) with ⟨hi', e1'⟩
      rcases hq : strconv.ParseUint (s.drop (s.length - 16)) with ⟨lo, e2⟩
      rcases hq' : strconv.ParseUint (s'.drop (s.length - 16)) with ⟨lo', e2'⟩
      rw [hp, hp'] at hhi
      rw [hq, hq'] at hlo
      rcases SameResult_cases _ _ _ _ hhi with ⟨h1, h2, h3⟩ | ⟨x, x', h1, h2⟩
      · subst h1 h2 h3
        rcases SameResult_cases _ _ _ _ hlo with ⟨h4, h5, h6⟩ | ⟨y, y', h4, h5⟩
        · subst h4 h5 h6
          simp only []
          split_ifs <;> exact Or.inl ⟨rfl, rfl, rfl⟩
        · subst h4 h5
          exact Or.inr ⟨by simp, by simp⟩
      · subst h1 h2
        exact Or.inr ⟨by simp, by simp⟩
    · rw [if_neg h16, if_neg h16]
      rcases hp : strconv.ParseUint s with ⟨v, e⟩
      rcases hp' : strconv.ParseUint s' with ⟨v', e'⟩
      have hsame := ParseUint_congr s s' h
      rw [hp, hp'] at hsame
      rcases SameResult_cases _ _ _ _ hsame with ⟨h1, h2, h3⟩ | ⟨x, x', h1, h2⟩
      · subst h1 h2 h3
        exact Or.inl ⟨rfl, rfl, rfl⟩
      · subst h1 h2
        exact Or.inr ⟨by simp, by simp⟩

/-! ## Totality: slice bounds and failures -/

theorem toNat_length_sub (s : GoString) :
    ((s.length : Int) - 16).toNat = s.length - 16 := by
  omega

/-- The two slice expressions of `TraceIDFromString` are in bounds whenever they are
evaluated, that is for strings of more than 16 bytes. -/
theorem slice_in_bounds (s : GoString) (h : 16 < s.length) :
    slice s 0 ((s.length : Int) - 16) = some (highPart s) ∧
      slice s ((s.length : Int) - 16) s.length = some (lowPart s) := by
  constructor
  · unfold slice
    rw [if_pos (by omega), toNat_length_sub]
    rfl
  · unfold slice
    rw [if_pos (by omega), toNat_length_sub]
    simp [lowPart]

/-- The checked transcription of `TraceIDFromString` never panics and agrees with the plain
one. -/
theorem TraceIDFromStringChecked_eq (s : GoString) :
    TraceIDFromStringChecked s = some (TraceIDFromString s) := by
  unfold TraceIDFromStringChecked TraceIDFromString
  by_cases h32 : s.length > 32
  · rw [if_pos h32, if_pos h32]
  · rw [if_neg h32, if_neg h32]
    by_cases h16 : s.length > 16
    · rw [if_pos h16, if_pos h16]
      obtain ⟨h1, h2⟩ := slice_in_bounds s h16
      simp only [h1, h2, highPart, lowPart]
      rcases strconv.ParseUint (s.take (s.length - 16)) with ⟨hi, _ | e1⟩
      · rcases strconv.ParseUint (s.drop (s.length - 16)) with ⟨lo, _ | e2⟩
        · simp only []
          split_ifs <;> rfl
        · rfl
      · rfl
    · rw [if_neg h16, if_neg h16]
      rcases strconv.ParseUint s with ⟨lo, _ | e⟩ <;> rfl

/-- When `TraceIDFromString` returns an error, the string it returns is empty. -/
theorem TraceIDFromString_err_empty (s : GoString) (h : (TraceIDFromString s).2 ≠ none) :
    (TraceIDFromString s).1 = [] := by
  unfold TraceIDFromString at h ⊢
  by_cases h32 : s.length > 32
  · rw [if_pos h32]
  · rw [if_neg h32] at h ⊢
    by_cases h16 : s.length > 16
    · rw [if_pos h16] at h ⊢
      simp only [] at h ⊢
      generalize strconv.ParseUint (s.take (s.length - 16)) = r1 at h ⊢
      generalize strconv.ParseUint (s.drop (s.length - 16)) = r2 at h ⊢
      rcases r1 with ⟨hi, _ | e1⟩
      · rcases r2 with ⟨lo, _ | e2⟩
        · exfalso
          apply h
          show (if hi = 0 then (fmt.sprintf_x lo, none)
            else (fmt.sprintf_x_016x hi lo, (none : Option Error))).2 = none
          split_ifs <;> rfl
        · rfl
      · rfl
    · rw [if_neg h16] at h ⊢
      generalize strconv.ParseUint s = r at h ⊢
      rcases r with ⟨lo, _ | e⟩
      · exact absurd rfl h
      · rfl

/-- When `IDFromString` returns an error, the string it returns is empty. -/
theorem IDFromString_err_empty (s : GoString) (h : (IDFromString s).2 ≠ none) :
    (IDFromString s).1 = [] := by
  unfold IDFromString at h ⊢
  by_cases h16 : s.length > 16
  · rw [if_pos h16]
  · rw [if_neg h16] at h ⊢
    generalize strconv.ParseUint s = r at h ⊢
    rcases r with ⟨v, _ | e⟩
    · exact absurd rfl h
    · rfl

theorem TraceIDFromString_ok_ne_nil (s t : GoString) (h : TraceIDFromString s = (t, none)) :
    t ≠ [] := by
  obtain ⟨hne, hhex, h32⟩ := TraceIDFromString_ok_input s t h
  obtain ⟨t0, ht0, hmin⟩ := TraceIDFromString_canonical s hne hhex h32
  rw [h] at ht0
  rw [(Prod.mk.inj ht0).1]
  exact hmin.2.2.1

/-! ## The `%d` verb and `Host` -/

theorem decDigit_table : ∀ d < 10,
    decDigitValue (UInt8.ofNat (48 + d)) = some d ∧
      decDigitValue (fmt.ldigits.getD d 0) = some d ∧
      (fmt.ldigits.getD d 0 = 48 ↔ d = 0) := by
  decide

/-- The decimal loop of `fmt` writes, in front of the buffer, the minimal decimal numeral
of `u`. -/
theorem decLoop_spec (slots u : Nat) (buf : GoString) (hs : 0 < slots)
    (hu : u < 10 ^ slots) :
    ∃ ds, fmt.decLoop slots u buf = ds ++ buf ∧ MinimalDecimal ds u := by
  induction slots generalizing u buf with
  | zero => omega
  | succ slots ih =>
    unfold fmt.decLoop
    by_cases h10 : u ≥ 10
    · rw [if_pos h10]
      have hrem : (48 + u - u / 10 * 10) % 2 ^ 64 = 48 + u % 10 := by omega
      simp only [hrem]
      have hslots : 0 < slots := by
        rcases Nat.eq_zero_or_pos slots with h0 | h0
        · subst h0
          have : u < 10 := by simpa using hu
          omega
        · exact h0
      have hq : u / 10 < 10 ^ slots := by
        rw [pow_succ] at hu
        exact Nat.div_lt_of_lt_mul (by omega)
      obtain ⟨ds, hds, hdec, hval, hne, hhead⟩ :=
        ih (u / 10) (UInt8.ofNat (48 + u % 10) :: buf) hslots hq
      obtain ⟨hdv, -, -⟩ := decDigit_table (u % 10) (Nat.mod_lt _ (by norm_num))
      refine ⟨ds ++ [UInt8.ofNat (48 + u % 10)], by rw [hds, List.append_assoc]; rfl,
        ?_, ?_, ?_, ?_⟩
      · refine (IsDecimalString_append _ _).mpr ⟨hdec, ?_⟩
        intro c hc
        rw [List.mem_singleton] at hc
        rw [hc, hdv]; rfl
      · rw [decValue_append, hval]
        simp only [decValue, numeralFrom, List.foldl_cons, List.foldl_nil, hdv,
          Option.getD_some, List.length_singleton]
        omega
      · simp [hne]
      · intro hh
        rw [List.head?_append_of_ne_nil _ hne] at hh
        have h1 := hhead hh
        rw [h1] at hval
        have h48 : decValue [48] = 0 := by decide
        omega
    · rw [if_neg h10]
      obtain ⟨-, hdv, hz⟩ := decDigit_table u (by omega)
      refine ⟨[fmt.ldigits.getD u 0], rfl, ?_, ?_, by simp, ?_⟩
      · intro c hc
        rw [List.mem_singleton] at hc
        rw [hc, hdv]; rfl
      · simp only [decValue, numeralFrom, List.foldl_cons, List.foldl_nil, hdv,
          Option.getD_some]
        omega
      · intro hh
        simp only [List.head?_cons, Option.some.injEq] at hh
        rw [hh]

/-- The verb `%d` prints the decimal rendering of a 64-bit integer. -/
theorem fmtIntegerDec_spec (n : Int) (hlo : -2 ^ 63 ≤ n) (hhi : n < 2 ^ 63) :
    SignedDecimal (fmt.fmtIntegerDec n) n := by
  unfold fmt.fmtIntegerDec
  by_cases hneg : n < 0
  · have hu : (2 ^ 64 - (n % 2 ^ 64).toNat) % 2 ^ 64 = (-n).toNat := by omega
    simp only [hneg, decide_True, if_true, hu]
    obtain ⟨ds, hds, hmin⟩ := decLoop_spec 68 (-n).toNat []
      (by norm_num) (by
        have : (-n).toNat < 2 ^ 64 := by omega
        exact lt_trans this (by norm_num))
    rw [hds, List.append_nil]
    exact Or.inr ⟨hneg, rfl, hmin⟩
  · have hu : (n % 2 ^ 64).toNat = n.toNat := by omega
    simp only [hneg, decide_False, hu, Bool.false_eq_true, if_false]
    obtain ⟨ds, hds, hmin⟩ := decLoop_spec 68 n.toNat []
      (by norm_num) (by
        have : n.toNat < 2 ^ 64 := by omega
        exact lt_trans this (by norm_num))
    rw [hds, List.append_nil]
    exact Or.inl ⟨by omega, hmin⟩

/-! ## The error of `json.Unmarshal` does not depend on what is already decoded -/

theorem decodeString_err_indep (c c' : GoString) (v : JSONValue) :
    (json.decodeString c v).2 = (json.decodeString c' v).2 := by
  cases v <;> rfl

theorem decodeBool_err_indep (c c' : Bool) (v : JSONValue) :
    (json.decodeBool c v).2 = (json.decodeBool c' v).2 := by
  cases v <;> rfl

theorem decodeInt64_err_indep (c c' : Int) (v : JSONValue) :
    (json.decodeInt64 c v).2 = (json.decodeInt64 c' v).2 := by
  cases v with
  | num n => simp only [json.decodeInt64]; split_ifs <;> rfl
  | _ => rfl

theorem decodePtr_err_indep {α : Type} (zero : α) (dec : α → JSONValue → α × Option Error)
    (hdec : ∀ c c' v, (dec c v).2 = (dec c' v).2) (c c' : Option α) (v : JSONValue) :
    (json.decodePtr zero dec c v).2 = (json.decodePtr zero dec c' v).2 := by
  cases v <;> first | rfl | exact hdec _ _ _

/-- The error of the member loop is the same for two member lists whose members raise the
same errors pairwise. -/
theorem memberFold_err_congr {α : Type}
    (step : α → GoString × JSONValue → α × Option Error)
    (ms ms' : List (GoString × JSONValue))
    (h : List.Forall₂ (fun m m' => ∀ c c', (step c m).2 = (step c' m').2) ms ms')
    (st st' : α × Option Error) (hst : st.2 = st'.2) :
    (json.memberFold step st ms).2 = (json.memberFold step st' ms').2 := by
  induction h generalizing st st' with
  | nil => exact hst
  | cons hm _ ih =>
    rw [memberFold_cons, memberFold_cons]
    apply ih
    show json.saveError st.2 _ = json.saveError st'.2 _
    rw [hst, hm st.1 st'.1]

theorem decodeStruct_err_indep {α : Type}
    (step : α → GoString × JSONValue → α × Option Error)
    (hstep : ∀ c c' m, (step c m).2 = (step c' m).2) (c c' : α) (v : JSONValue) :
    (json.decodeStruct step c v).2 = (json.decodeStruct step c' v).2 := by
  cases v with
  | obj ms =>
    rw [decodeStruct_obj, decodeStruct_obj]
    refine memberFold_err_congr step ms ms ?_ _ _ rfl
    exact List.forall₂_same.mpr (fun m _ c c' => hstep c c' m)
  | _ => rfl

/-- The error of decoding the elements of an array is the same for two arrays whose elements
raise the same errors pairwise. -/
theorem decodeElems_err_congr {α : Type} (zero : α)
    (dec : α → JSONValue → α × Option Error)
    (es es' : List JSONValue)
    (h : List.Forall₂ (fun e e' => ∀ c c', (dec c e).2 = (dec c' e').2) es es')
    (cur cur' : List α) :
    (json.decodeElems zero dec cur es).2 = (json.decodeElems zero dec cur' es').2 := by
  induction h generalizing cur cur' with
  | nil => rfl
  | cons he _ ih =>
    simp only [json.decodeElems]
    rw [he (cur.headD zero) (cur'.headD zero), ih cur.tail cur'.tail]

theorem decodeSlice_err_indep {α : Type} (zero : α)
    (dec : α → JSONValue → α × Option Error)
    (hdec : ∀ c c' v, (dec c v).2 = (dec c' v).2) (c c' s s' : List α) (v : JSONValue) :
    (json.decodeSlice zero dec c s v).2 = (json.decodeSlice zero dec c' s' v).2 := by
  cases v with
  | arr es =>
    simp only [json.decodeSlice]
    split_ifs
    · rfl
    · exact decodeElems_err_congr zero dec es es
        (List.forall₂_same.mpr (fun e _ c c' => hdec c c' e)) _ _
  | _ => rfl

/-- On an array, `json.Unmarshal` into the `nil` slice is the decoding of its elements. -/
theorem Unmarshal_arr (es : List JSONValue) :
    json.Unmarshal (some (.arr es)) [] = json.decodeElems span.zero json.decodeSpan [] es := by
  cases es with
  | nil => rfl
  | cons e es => rfl

theorem decodeSpan_obj_err (c : span) (ms : List (GoString × JSONValue)) :
    (json.decodeSpan c (.obj ms)).2 =
      (json.memberFold json.spanStep (⟨c, [], []⟩, none) ms).2 := rfl

theorem endpointStep_err_indep (c c' : endpoint) (m : GoString × JSONValue) :
    (json.endpointStep c m).2 = (json.endpointStep c' m).2 := by
  unfold json.endpointStep
  rcases json.findField json.endpointFields m.1 with _ | f
  · rfl
  · cases f
    · exact decodeString_err_indep _ _ _
    · exact decodeString_err_indep _ _ _
    · exact decodeString_err_indep _ _ _
    · exact decodeInt64_err_indep _ _ _

theorem decodeEndpoint_err_indep (c c' : endpoint) (v : JSONValue) :
    (json.decodeEndpoint c v).2 = (json.decodeEndpoint c' v).2 :=
  decodeStruct_err_indep _ endpointStep_err_indep c c' v

theorem annotationStep_err_indep (c c' : annotation) (m : GoString × JSONValue) :
    (json.annotationStep c m).2 = (json.annotationStep c' m).2 := by
  unfold json.annotationStep
  rcases json.findField json.annotationFields m.1 with _ | f
  · rfl
  · cases f
    · exact decodePtr_err_indep _ _ decodeEndpoint_err_indep _ _ _
    · exact decodeInt64_err_indep _ _ _
    · exact decodeString_err_indep _ _ _

theorem decodeAnnotation_err_indep (c c' : annotation) (v : JSONValue) :
    (json.decodeAnnotation c v).2 = (json.decodeAnnotation c' v).2 :=
  decodeStruct_err_indep _ annotationStep_err_indep c c' v

theorem binaryAnnotationStep_err_indep (c c' : binaryAnnotation) (m : GoString × JSONValue) :
    (json.binaryAnnotationStep c m).2 = (json.binaryAnnotationStep c' m).2 := by
  unfold json.binaryAnnotationStep
  rcases json.findField json.binaryAnnotationFields m.1 with _ | f
  · rfl
  · cases f
    · exact decodeString_err_indep _ _ _
    · exact decodeString_err_indep _ _ _
    · exact decodePtr_err_indep _ _ decodeEndpoint_err_indep _ _ _

theorem decodeBinaryAnnotation_err_indep (c c' : binaryAnnotation) (v : JSONValue) :
    (json.decodeBinaryAnnotation c v).2 = (json.decodeBinaryAnnotation c' v).2 :=
  decodeStruct_err_indep _ binaryAnnotationStep_err_indep c c' v

theorem spanStep_err_indep (c c' : json.spanBuf) (m : GoString × JSONValue) :
    (json.spanStep c m).2 = (json.spanStep c' m).2 := by
  unfold json.spanStep
  rcases json.findField json.spanFields m.1 with _ | f
  · rfl
  · cases f
    · exact decodeString_err_indep _ _ _
    · exact decodeString_err_indep _ _ _
    · exact decodeString_err_indep _ _ _
    · exact decodeString_err_indep _ _ _
    · exact decodePtr_err_indep _ _ decodeInt64_err_indep _ _ _
    · exact decodePtr_err_indep _ _ decodeInt64_err_indep _ _ _
    · exact decodeBool_err_indep _ _ _
    · exact decodeSlice_err_indep _ _ decodeAnnotation_err_indep _ _ _ _ _
    · exact decodeSlice_err_indep _ _ decodeBinaryAnnotation_err_indep _ _ _ _ _

theorem decodeSpan_err_indep (c c' : span) (v : JSONValue) :
    (json.decodeSpan c v).2 = (json.decodeSpan c' v).2 :=
  decodeStruct_err_indep _ spanStep_err_indep _ _ v

/-- A member that selects one of the string fields `traceId`, `id`, `parentId` and holds a
JSON string raises no error, whatever the string. -/
theorem spanStep_identifier_string (c : json.spanBuf) (key x : GoString)
    (hkey : json.findField json.spanFields key = some .TraceID ∨
      json.findField json.spanFields key = some .ID ∨
      json.findField json.spanFields key = some .ParentID) :
    (json.spanStep c (key, .str x)).2 = none := by
  unfold json.spanStep
  rcases hkey with h | h | h <;> simp only [h] <;> rfl

/-- The error of `json.Unmarshal` is the same before and after replacing the string held by
an identifier member of one span object. -/
theorem Unmarshal_err_identifier (pre post : List JSONValue)
    (ms₁ ms₂ : List (GoString × JSONValue)) (key x y : GoString)
    (hkey : json.findField json.spanFields key = some .TraceID ∨
      json.findField json.spanFields key = some .ID ∨
      json.findField json.spanFields key = some .ParentID) :
    (json.Unmarshal (some (.arr (pre ++ .obj (ms₁ ++ (key, .str x) :: ms₂) :: post))) []).2 =
      (json.Unmarshal (some (.arr (pre ++ .obj (ms₁ ++ (key, .str y) :: ms₂) :: post))) []).2
      := by
  rw [Unmarshal_arr, Unmarshal_arr]
  refine decodeElems_err_congr _ _ _ _ ?_ _ _
  refine List.rel_append (List.forall₂_same.mpr ?_) (List.Forall₂.cons ?_
    (List.forall₂_same.mpr ?_))
  · intro e _ c c'
    exact decodeSpan_err_indep c c' e
  · intro c c'
    rw [decodeSpan_obj_err, decodeSpan_obj_err]
    refine memberFold_err_congr _ _ _ ?_ _ _ rfl
    refine List.rel_append (List.forall₂_same.mpr ?_) (List.Forall₂.cons ?_
      (List.forall₂_same.mpr ?_))
    · intro m _ d d'
      exact spanStep_err_indep d d' m
    · intro d d'
      rw [spanStep_identifier_string d key x hkey, spanStep_identifier_string d' key y hkey]
    · intro m _ d d'
      exact spanStep_err_indep d d' m
  · intro e _ c c'
    exact decodeSpan_err_indep c c' e

/-- The number of entries `Decode` returns: one per element of the array when there is no
error, none otherwise. -/
theorem Decode_res_length (es : List JSONValue) :
    (Decode (some (.arr es))).res.length =
      if (json.Unmarshal (some (.arr es)) []).2 = none then es.length else 0 := by
  rcases hu : json.Unmarshal (some (.arr es)) [] with ⟨spans, _ | e⟩
  · obtain ⟨-, h2, -⟩ := Decode_of_unmarshal _ _ hu
    have hlen : spans.length = es.length := by
      have := decodeElems_length span.zero json.decodeSpan [] es
      have hu' : json.decodeElems span.zero json.decodeSpan [] es = (spans, none) := by
        rw [← Unmarshal_arr]; exact hu
      rw [hu'] at this
      exact this
    rw [h2, hlen]; rfl
  · have : Decode (some (.arr es)) = ⟨[], some e, []⟩ := by
      unfold Decode; rw [hu]
    rw [this]; rfl

/-- No member of a span object is required by `Decode`: an array of objects in which every
member that is present is accepted by the field it selects is decoded without error, with
one entry per element. -/
theorem Decode_no_required_member (objs : List (List (GoString × JSONValue)))
    (hok : ∀ ms ∈ objs, ∀ m ∈ ms, ∀ c, (json.spanStep c m).2 = none) :
    (Decode (some (.arr (objs.map .obj)))).err = none ∧
      (Decode (some (.arr (objs.map .obj)))).res.length = objs.length := by
  have hun : (json.Unmarshal (some (.arr (objs.map .obj))) []).2 = none := by
    rw [Unmarshal_arr]
    apply decodeElems_err_none
    intro e he c
    obtain ⟨ms, hms, rfl⟩ := List.mem_map.mp he
    rw [decodeSpan_obj_err]
    exact memberFold_err_none _ _ _ rfl (hok ms hms)
  constructor
  · rw [Decode_err, hun]
  · rw [Decode_res_length, if_pos hun, List.length_map]

/-- A span object with an `annotations` or `binaryAnnotations` member that is neither an
array nor `null` makes `Decode` fail. -/
theorem Decode_mistyped_annotations (pre post : List JSONValue)
    (ms₁ ms₂ : List (GoString × JSONValue)) (key : GoString) (v : JSONValue)
    (hkey : json.findField json.spanFields key = some .Anno ∨
      json.findField json.spanFields key = some .BAnno)
    (hnull : v ≠ .null) (harr : ∀ l, v ≠ .arr l) :
    (Decode (some (.arr (pre ++ .obj (ms₁ ++ (key, v) :: ms₂) :: post)))).err ≠ none := by
  rw [Decode_err, Unmarshal_arr]
  apply decodeElems_err_of_bad
  intro c
  rw [decodeSpan_obj_err]
  apply memberFold_err_of_bad
  intro c'
  rcases hkey with hk | hk
  · simp only [json.spanStep, hk]
    cases v with
    | null => exact absurd rfl hnull
    | arr l => exact absurd rfl (harr l)
    | _ => simp [json.decodeSlice]
  · simp only [json.spanStep, hk]
    cases v with
    | null => exact absurd rfl hnull
    | arr l => exact absurd rfl (harr l)
    | _ => simp [json.decodeSlice]

/-- The error of `Decode` and the number of entries it returns do not depend on the string
held by a `traceId`, `id` or `parentId` member: `Decode` parses no identifier. -/
theorem Decode_identifier_content (pre post : List JSONValue)
    (ms₁ ms₂ : List (GoString × JSONValue)) (key x y : GoString)
    (hkey : json.findField json.spanFields key = some .TraceID ∨
      json.findField json.spanFields key = some .ID ∨
      json.findField json.spanFields key = some .ParentID) :
    (Decode (some (.arr (pre ++ .obj (ms₁ ++ (key, .str x) :: ms₂) :: post)))).err =
        (Decode (some (.arr (pre ++ .obj (ms₁ ++ (key, .str y) :: ms₂) :: post)))).err ∧
      (Decode (some (.arr (pre ++ .obj (ms₁ ++ (key, .str x) :: ms₂) :: post)))).res.length =
        (Decode (some (.arr (pre ++ .obj (ms₁ ++ (key, .str y) :: ms₂) :: post)))).res.length
      := by
  have herr := Unmarshal_err_identifier pre post ms₁ ms₂ key x y hkey
  constructor
  · rw [Decode_err, Decode_err, herr]
  · rw [Decode_res_length, Decode_res_length, herr]
    simp only [List.length_append, List.length_cons]

/-! ## Lemmas on `Annotations` and `BinaryAnnotations` -/

theorem rangeLoop_mem {α : Type} (a : Ptr) (xs : List α) (i : Nat) (mem : List α)
    (res : List (Option Ptr)) (x : α) (hx : xs.getLast? = some x) :
    (rangeLoop a xs i mem res).1 = mem.set a x := by
  induction xs generalizing i mem res with
  | nil => simp at hx
  | cons y rest ih =>
    unfold rangeLoop
    cases rest with
    | nil =>
      simp only [List.getLast?_singleton, Option.some.injEq] at hx
      subst hx; rfl
    | cons z rest' =>
      rw [List.getLast?_cons_cons] at hx
      rw [ih _ _ _ hx, List.set_set]

theorem rangeLoop_res_length {α : Type} (a : Ptr) (xs : List α) (i : Nat) (mem : List α)
    (res : List (Option Ptr)) : (rangeLoop a xs i mem res).2.length = res.length := by
  induction xs generalizing i mem res with
  | nil => rfl
  | cons y rest ih =>
    unfold rangeLoop
    rw [ih, List.length_set]

theorem rangeLoop_res_get {α : Type} (a : Ptr) (xs : List α) (i : Nat) (mem : List α)
    (res : List (Option Ptr)) (j : Nat) (hj : j < res.length) :
    (rangeLoop a xs i mem res).2.get? j =
      if i ≤ j ∧ j < i + xs.length then some (some a) else res.get? j := by
  induction xs generalizing i mem res with
  | nil =>
    have : ¬ (i ≤ j ∧ j < i + 0) := by omega
    simp only [rangeLoop, List.length_nil, if_neg this]
  | cons y rest ih =>
    unfold rangeLoop
    rw [ih _ _ _ (by rw [List.length_set]; exact hj)]
    simp only [List.length_cons, List.get?_eq_getElem?, List.getElem?_set]
    by_cases h1 : i = j
    · subst h1
      rw [if_neg (by omega), if_pos rfl, if_pos hj, if_pos (by omega)]
    · rw [if_neg h1]
      by_cases h2 : i + 1 ≤ j ∧ j < i + 1 + rest.length
      · rw [if_pos h2, if_pos (by omega)]
      · rw [if_neg h2, if_neg (by omega)]

/-- What the adapting loop yields for the wire list `xs`: one entry per element, every entry
holding the address of the one iteration variable, which is left with the last element. -/
theorem rangeLoop_at {α : Type} (zero : α) (xs : List α) (i : Nat) (hi : i < xs.length) :
    Adapted.at ⟨(rangeLoop 0 xs 0 [zero] (List.replicate xs.length none)).2,
      (rangeLoop 0 xs 0 [zero] (List.replicate xs.length none)).1⟩ i = xs.getLast? := by
  unfold Adapted.at
  simp only []
  rw [rangeLoop_res_get _ _ _ _ _ _ (by rw [List.length_replicate]; exact hi),
    if_pos (by omega)]
  obtain ⟨x, hx⟩ : ∃ x, xs.getLast? = some x := by
    cases xs with
    | nil => simp at hi
    | cons y r => exact ⟨_, List.getLast?_eq_getLast _ (by simp)⟩
  rw [rangeLoop_mem _ _ _ _ _ x hx, hx]
  rfl

/-- The sequence returned by `Annotations()` has the length of the wire list, and each of
its entries reads the last wire annotation. -/
theorem Annotations_at (s : span) :
    s.Annotations.res.length = s.Anno.length ∧
      ∀ i, i < s.Anno.length → s.Annotations.at i = s.Anno.getLast? := by
  constructor
  · show (rangeLoop 0 s.Anno 0 [ annotation.zero] _).2.length = _
    rw [rangeLoop_res_length, List.length_replicate]
  · intro i hi
    exact rangeLoop_at annotation.zero s.Anno i hi

/-- The sequence returned by `BinaryAnnotations()` has the length of the wire list, and each
of its entries reads the last wire binary annotation. -/
theorem BinaryAnnotations_at (s : span) :
    s.BinaryAnnotations.res.length = s.BAnno.length ∧
      ∀ i, i < s.BAnno.length → s.BinaryAnnotations.at i = s.BAnno.getLast? := by
  constructor
  · show (rangeLoop 0 s.BAnno 0 [ binaryAnnotation.zero] _).2.length = _
    rw [rangeLoop_res_length, List.length_replicate]
  · intro i hi
    exact rangeLoop_at binaryAnnotation.zero s.BAnno i hi

/-! ## Identifier codec: the claims -/

/-- C1, at the empty string: the empty string is made of hexadecimal digits only and has
length at most 16, yet `IDFromString` rejects it with the syntax error of `ParseUint`. -/
theorem IDFromString_empty_hex_rejected :
    IsHexString (str "") ∧ (str "").length ≤ 16 ∧
      (IDFromString (str "")).2 = some (Error.numSyntax (str "")) := by
  decide

/-- C1 (amended to non-empty input): for every non-empty hexadecimal string `s` of length at
most 16, the value denoted by `s` fits in 64 bits, `IDFromString s` succeeds, and its result is
the base-10 numeral of that value, without leading zeros and `"0"` for the value zero. -/
theorem IDFromString_hex (s : GoString) (hne : s ≠ []) (hhex : IsHexString s)
    (hlen : s.length ≤ 16) :
    hexValue s < 2 ^ 64 ∧ (IDFromString s).2 = none ∧
      MinimalDecimal (IDFromString s).1 (hexValue s) ∧
      (hexValue s = 0 → (IDFromString s).1 = str "0") := by
  have hv := hexValue_lt_of_length_le s hlen
  have hp := ParseUint_hex s hne hhex hv
  have hid : IDFromString s = (strconv.FormatUint (hexValue s), none) := by
    unfold IDFromString
    rw [if_neg (by omega), hp]
  obtain ⟨hmin, hz⟩ := FormatUint_spec (hexValue s) hv
  rw [hid]
  exact ⟨hv, rfl, hmin, hz⟩

/-- C1, an instance: `"463ac35c9f6413ad"` and its decimal identifier. -/
theorem IDFromString_hex_witness :
    hexValue (str "463ac35c9f6413ad") < 2 ^ 64 ∧
      (IDFromString (str "463ac35c9f6413ad")).2 = none ∧
      MinimalDecimal (IDFromString (str "463ac35c9f6413ad")).1
        (hexValue (str "463ac35c9f6413ad")) ∧
      (hexValue (str "463ac35c9f6413ad") = 0 →
        (IDFromString (str "463ac35c9f6413ad")).1 = str "0") :=
  IDFromString_hex (str "463ac35c9f6413ad") (by decide) (by decide) (by decide)

/-- C2: whenever `TraceIDFromString s` succeeds with result `t`, the string has at most 32
bytes; with `hi` the value of what precedes the last 16 bytes and `lo` the value of the last 16
bytes (for `len(s) <= 16`: `hi = 0` and `lo` the value of all of `s`), both are 64-bit values
and are what `ParseUint` returned for the two parts; `t` is the minimal-width lowercase hex of
`lo` when `hi = 0`, and otherwise the minimal-width lowercase hex of `hi` followed by `lo` as
exactly 16 zero-padded lowercase hex digits. -/
theorem TraceIDFromString_hi_lo (s t : GoString) (h : TraceIDFromString s = (t, none)) :
    s.length ≤ 32 ∧
      (s.length ≤ 16 → hexValue (highPart s) = 0 ∧ lowPart s = s ∧
        strconv.ParseUint s = (hexValue s, none)) ∧
      (17 ≤ s.length → (highPart s).length = s.length - 16 ∧ (lowPart s).length = 16 ∧
        strconv.ParseUint (highPart s) = (hexValue (highPart s), none) ∧
        strconv.ParseUint (lowPart s) = (hexValue (lowPart s), none)) ∧
      hexValue (highPart s) < 2 ^ 64 ∧ hexValue (lowPart s) < 2 ^ 64 ∧
      (hexValue (highPart s) = 0 → MinimalLowerHex t (hexValue (lowPart s))) ∧
      (hexValue (highPart s) ≠ 0 → ∃ a b, t = a ++ b ∧
        MinimalLowerHex a (hexValue (highPart s)) ∧
        PaddedLowerHex16 b (hexValue (lowPart s))) := by
  by_cases hlen : s.length ≤ 16
  · obtain ⟨lo, hp, ht⟩ := TraceIDFromString_short s t hlen h
    obtain ⟨-, -, hlo, hlt⟩ := ParseUint_ok s lo hp
    obtain ⟨hhi, hlow⟩ := highPart_of_short s hlen
    have hz : hexValue (highPart s) = 0 := by rw [hhi]; rfl
    subst hlo
    rw [hlow, hz]
    refine ⟨by omega, fun _ => ⟨rfl, rfl, hp⟩, fun h17 => by omega, by norm_num, hlt,
      ?_, ?_⟩
    · intro _; rw [ht]; exact (sprintf_x_spec _ hlt).1
    · intro hne; exact absurd rfl hne
  · have hlong : 16 < s.length := by omega
    obtain ⟨h32, hi, lo, hp, hq, ht⟩ := TraceIDFromString_long s t hlong h
    obtain ⟨-, -, hhi, hhilt⟩ := ParseUint_ok _ hi hp
    obtain ⟨-, -, hlo, hlolt⟩ := ParseUint_ok _ lo hq
    subst hhi hlo
    refine ⟨h32, fun h16 => by omega,
      fun _ => ⟨(length_parts_of_long s hlong).1, (length_parts_of_long s hlong).2, hp, hq⟩,
      hhilt, hlolt, ?_, ?_⟩
    · intro h0
      rw [ht, if_pos h0]
      exact (sprintf_x_spec _ hlolt).1
    · intro hne
      rw [ht, if_neg hne]
      exact ⟨_, _, rfl, (sprintf_x_spec _ hhilt).1, fmtInteger_16_spec _ hlolt⟩

/-- C2, an instance: a 32-digit trace ID with both halves non-zero, given in mixed case. -/
theorem TraceIDFromString_hi_lo_witness :
    TraceIDFromString (str "48485A3953bb61246453f91ca2d4880f")
        = (str "48485a3953bb61246453f91ca2d4880f", none) ∧
      hexValue (highPart (str "48485A3953bb61246453f91ca2d4880f")) ≠ 0 ∧
      ∃ a b, str "48485a3953bb61246453f91ca2d4880f" = a ++ b ∧
        MinimalLowerHex a (hexValue (highPart (str "48485A3953bb61246453f91ca2d4880f"))) ∧
        PaddedLowerHex16 b (hexValue (lowPart (str "48485A3953bb61246453f91ca2d4880f"))) :=
  ⟨by decide, by decide,
    (TraceIDFromString_hi_lo (str "48485A3953bb61246453f91ca2d4880f")
      (str "48485a3953bb61246453f91ca2d4880f") (by decide)).2.2.2.2.2.2 (by decide)⟩

/-- C3, at the empty string: it is made of hexadecimal digits only and has length at most
32, yet `TraceIDFromString` rejects it. -/
theorem TraceIDFromString_empty_hex_rejected :
    IsHexString (str "") ∧ (str "").length ≤ 32 ∧
      (TraceIDFromString (str "")).2 = some (Error.numSyntax (str "")) := by
  decide

/-- C3 (amended to non-empty input): for every non-empty hexadecimal string `s`,
`TraceIDFromString s` succeeds if `len(s) <= 32`, and if `len(s) > 32` it fails, returning
the empty string and the length error. -/
theorem TraceIDFromString_hex_length (s : GoString) (hne : s ≠ []) (hhex : IsHexString s) :
    (s.length ≤ 32 → (TraceIDFromString s).2 = none) ∧
      (32 < s.length → TraceIDFromString s = ([], some (Error.errorf
        (str "TraceID cannot be longer than 32 hex characters: " ++ s)))) := by
  constructor
  · intro h32
    by_cases hlen : s.length ≤ 16
    · have hp := ParseUint_hex s hne hhex (hexValue_lt_of_length_le s hlen)
      unfold TraceIDFromString
      rw [if_neg (by omega), if_neg (by omega), hp]
    · have hlong : 16 < s.length := by omega
      obtain ⟨hl1, hl2⟩ := length_parts_of_long s hlong
      have hsplit := (IsHexString_append (highPart s) (lowPart s)).mp
        (by rw [highPart_lowPart]; exact hhex)
      have hp := ParseUint_hex (highPart s)
        (by intro h0; rw [h0] at hl1; simp at hl1; omega) hsplit.1
        (hexValue_lt_of_length_le _ (by omega))
      have hq := ParseUint_hex (lowPart s)
        (by intro h0; rw [h0] at hl2; simp at hl2) hsplit.2
        (hexValue_lt_of_length_le _ (by omega))
      unfold highPart at hp
      unfold lowPart at hq
      unfold TraceIDFromString
      rw [if_neg (by omega), if_pos hlong]
      simp only [hp, hq]
      split_ifs <;> rfl
  · intro h32
    unfold TraceIDFromString
    rw [if_pos h32]

/-- C3, two instances: a 32-digit string is accepted, a 33-digit string is rejected. -/
theorem TraceIDFromString_hex_length_witness :
    (TraceIDFromString (str "48485a3953bb61246453f91ca2d4880f")).2 = none ∧
      TraceIDFromString (str "048485a3953bb61246453f91ca2d4880f") = ([], some (Error.errorf
        (str "TraceID cannot be longer than 32 hex characters: " ++
          str "048485a3953bb61246453f91ca2d4880f"))) :=
  ⟨(TraceIDFromString_hex_length (str "48485a3953bb61246453f91ca2d4880f")
      (by decide) (by decide)).1 (by decide),
    (TraceIDFromString_hex_length (str "048485a3953bb61246453f91ca2d4880f")
      (by decide) (by decide)).2 (by decide)⟩

/-- C4: for every string `s` of more than 16 bytes, whatever its content, `IDFromString s`
returns the length error together with the empty string: no value is produced, in particular
none parsed from a part of `s`. -/
theorem IDFromString_too_long (s : GoString) (h : 16 < s.length) :
    IDFromString s = ([], some (Error.errorf
      (str "ID cannot be longer than 16 hex characters: " ++ s))) := by
  unfold IDFromString
  rw [if_pos h]

/-- C4, an instance: the zero-padded 17-digit string `"00000000000000001"` of value 1. -/
theorem IDFromString_too_long_witness :
    16 < (str "00000000000000001").length ∧ hexValue (str "00000000000000001") = 1 ∧
      IDFromString (str "00000000000000001") = ([], some (Error.errorf
        (str "ID cannot be longer than 16 hex characters: " ++ str "00000000000000001"))) :=
  ⟨by decide, by decide, IDFromString_too_long (str "00000000000000001") (by decide)⟩

/-- C5: for every input on which `TraceIDFromString` succeeds and whose high half is zero
(as a number, or because every byte before the last 16 is `'0'`), the output is the
minimal-width lowercase hex of the low half alone: it has no leading zeros, at most 16 digits,
and is what `%x` prints for the low half. -/
theorem TraceIDFromString_zero_high (s t : GoString) (h : TraceIDFromString s = (t, none))
    (hhi : hexValue (highPart s) = 0 ∨ ∀ c ∈ highPart s, c = 48) :
    MinimalLowerHex t (hexValue (lowPart s)) ∧ NoLeadingZeros t ∧ t.length ≤ 16 ∧
      t = fmt.sprintf_x (hexValue (lowPart s)) := by
  have hz : hexValue (highPart s) = 0 := by
    rcases hhi with h0 | h0
    · exact h0
    · exact hexValue_zeros _ h0
  by_cases hlen : s.length ≤ 16
  · obtain ⟨lo, hp, ht⟩ := TraceIDFromString_short s t hlen h
    obtain ⟨-, -, hlo, hlt⟩ := ParseUint_ok s lo hp
    subst hlo
    rw [(highPart_of_short s hlen).2, ht]
    obtain ⟨hmin, hl⟩ := sprintf_x_spec _ hlt
    exact ⟨hmin, hmin.2.2, hl, rfl⟩
  · obtain ⟨-, hi, lo, hp, hq, ht⟩ := TraceIDFromString_long s t (by omega) h
    obtain ⟨-, -, hhv, -⟩ := ParseUint_ok _ hi hp
    obtain ⟨-, -, hlo, hlt⟩ := ParseUint_ok _ lo hq
    subst hhv hlo
    rw [if_pos hz] at ht
    rw [ht]
    obtain ⟨hmin, hl⟩ := sprintf_x_spec _ hlt
    exact ⟨hmin, hmin.2.2, hl, rfl⟩

/-- C5, an instance: 17 digits with a `'0'` before the last 16; only the low half is printed. -/
theorem TraceIDFromString_zero_high_witness :
    TraceIDFromString (str "0000000000000002A") = (str "2a", none) ∧
      MinimalLowerHex (str "2a") (hexValue (lowPart (str "0000000000000002A"))) ∧
      NoLeadingZeros (str "2a") ∧ (str "2a").length ≤ 16 ∧
      str "2a" = fmt.sprintf_x (hexValue (lowPart (str "0000000000000002A"))) :=
  ⟨by decide, TraceIDFromString_zero_high (str "0000000000000002A") (str "2a") (by decide)
    (Or.inr (by decide))⟩

/-- C6: `IDFromString("")` and `TraceIDFromString("")` both fail, with the syntax error of
`ParseUint` and the empty string as value: the empty string is rejected. -/
theorem empty_identifier_rejected :
    IDFromString (str "") = ([], some (Error.numSyntax [])) ∧
      TraceIDFromString (str "") = ([], some (Error.numSyntax [])) := by
  decide

/-! ## Span accessors and `Decode`: the claims -/

/-- C7: `Parent()` returns the empty string and no error when the wire `parentId` is empty,
which is not what `IDFromString` returns for the empty string (that is an error); for every
non-empty `parentId` it returns exactly the result of `IDFromString(parentId)`. `SpanID()`
and `Trace()` on an empty `id` / `traceId` return an error. -/
theorem span_Parent_spec (s : span) :
    (s.ParentID = [] → s.Parent = ([], none) ∧ s.Parent ≠ IDFromString s.ParentID) ∧
      (s.ParentID ≠ [] → s.Parent = IDFromString s.ParentID) ∧
      (s.ID = [] → s.SpanID = ([], some (Error.numSyntax []))) ∧
      (s.TraceID = [] → s.Trace = ([], some (Error.numSyntax []))) := by
  refine ⟨?_, ?_, ?_, ?_⟩
  · intro h
    have hp : s.Parent = ([], none) := by unfold span.Parent; rw [if_pos h]
    rw [hp, h]
    exact ⟨rfl, by decide⟩
  · intro h
    unfold span.Parent; rw [if_neg h]
  · intro h
    unfold span.SpanID; rw [h]; decide
  · intro h
    unfold span.Trace; rw [h]; decide

/-- C7, two instances: a span without `parentId` (and without `id` and `traceId`), and a
span whose `parentId` is `"ff"`. -/
theorem span_Parent_spec_witness :
    (span.zero.Parent = ([], none) ∧ span.zero.Parent ≠ IDFromString span.zero.ParentID) ∧
      span.zero.SpanID = ([], some (Error.numSyntax [])) ∧
      span.zero.Trace = ([], some (Error.numSyntax [])) ∧
      span.Parent { span.zero with ParentID := str "ff" } = (str "255", none) :=
  ⟨(span_Parent_spec span.zero).1 rfl, (span_Parent_spec span.zero).2.2.1 rfl,
    (span_Parent_spec span.zero).2.2.2 rfl,
    ((span_Parent_spec { span.zero with ParentID := str "ff" }).2.1 (by decide)).trans
      (by decide)⟩

/-- C8, on the array `twoSpanBody` of two span objects named `"a"` and `"b"`: `json.Unmarshal`
yields the two records in order, and `Decode` returns two entries without error, but both
entries hold the same pointer, and `Name()` of the first returned span is `"b"`, the name of
the second array element, not `"a"`. -/
theorem Decode_first_span_reads_last :
    (json.Unmarshal (some twoSpanBody) []).1.map span.Name = [str "a", str "b"] ∧
      (json.Unmarshal (some twoSpanBody) []).2 = none ∧
      (Decode (some twoSpanBody)).err = none ∧
      (Decode (some twoSpanBody)).res = [some 0, some 0] ∧
      ((Decode (some twoSpanBody)).at 0).map span.Name = some (str "b") ∧
      ((Decode (some twoSpanBody)).at 0).map span.Name ≠ some (str "a") := by
  decide

/-- C9, on the input `[{}]`: the one span object has none of `traceId`, `name`, `id`,
`annotations`, `binaryAnnotations`, and the claim (like the doc comment of `Decode`, which
says that it validates the body) has `Decode` fail; yet `json.Unmarshal` reports no error and
`Decode` returns no error and one span, whose fields all have their zero value. -/
theorem Decode_accepts_empty_object :
    (json.Unmarshal (some (.arr [.obj []])) []) = ([span.zero], none) ∧
      (Decode (some (.arr [.obj []]))).err = none ∧
      (Decode (some (.arr [.obj []]))).res.length = 1 ∧
      (Decode (some (.arr [.obj []]))).at 0 = some span.zero := by
  decide

/-- C10, at the wire duration 9223372036854776 µs: it is a 64-bit integer, but `Duration()`
is the negative interval -9223372036854775616 ns and not 9223372036854776000 ns. -/
theorem span_Duration_wraps :
    (-2 ^ 63 ≤ (9223372036854776 : Int) ∧ (9223372036854776 : Int) < 2 ^ 63) ∧
      span.Duration { span.zero with Dur := some 9223372036854776 } = -9223372036854775616 ∧
      span.Duration { span.zero with Dur := some 9223372036854776 }
        ≠ 9223372036854776 * 1000 := by
  decide

/-- C10 (amended): `Duration()` is zero when the wire duration is absent; when the wire
duration is the 64-bit integer `d`, it is `d * 1000` nanoseconds reduced into the `int64`
range, which is `d * 1000` as a mathematical integer exactly when
`-9223372036854775 ≤ d ≤ 9223372036854775`. -/
theorem span_Duration_spec (s : span) :
    (s.Dur = none → s.Duration = 0) ∧
      ∀ d : Int, s.Dur = some d → -2 ^ 63 ≤ d → d < 2 ^ 63 →
        s.Duration = wrapInt64 (d * 1000) ∧
        (s.Duration - d * 1000) % 2 ^ 64 = 0 ∧
        (s.Duration = d * 1000 ↔ -9223372036854775 ≤ d ∧ d ≤ 9223372036854775) := by
  constructor
  · intro h
    unfold span.Duration; rw [h]
  · intro d hd hlo hhi
    have hdur : s.Duration = wrapInt64 (d * 1000) := by
      unfold span.Duration; rw [hd]; rfl
    rw [hdur]
    refine ⟨rfl, ?_, ?_⟩
    · unfold wrapInt64; omega
    · constructor
      · intro h
        unfold wrapInt64 at h
        omega
      · rintro ⟨h1, h2⟩
        exact wrapInt64_of_range _ (by omega) (by omega)

/-- C10, two instances: an absent duration gives zero and 2000 µs give 2 ms. -/
theorem span_Duration_spec_witness :
    span.zero.Duration = 0 ∧
      span.Duration { span.zero with Dur := some 2000 } = 2000 * 1000 :=
  ⟨(span_Duration_spec span.zero).1 rfl,
    ((span_Duration_spec { span.zero with Dur := some 2000 }).2 2000 rfl (by decide)
      (by decide)).2.2.mpr (by decide)⟩

/-! ## Canonical forms: the claims -/

/-- C17: for every non-empty hexadecimal string `s` of length at most 32, `TraceIDFromString`
succeeds with an output `t` that, read as a base-16 numeral, denotes the same natural number
as `s`; `t` is the unique minimal lowercase hex numeral of that number, it is never longer
than `s`, and another successful input yields the same output if and only if it denotes the
same number. -/
theorem TraceIDFromString_preserves_value (s : GoString) (hne : s ≠ [])
    (hhex : IsHexString s) (h32 : s.length ≤ 32) :
    ∃ t, TraceIDFromString s = (t, none) ∧
      hexValue t = hexValue s ∧ IsLowerHexString t ∧ NoLeadingZeros t ∧
      (∀ u, MinimalLowerHex u (hexValue s) → u = t) ∧
      t.length ≤ s.length ∧
      (∀ s' t', TraceIDFromString s' = (t', none) →
        (t' = t ↔ hexValue s' = hexValue s)) := by
  obtain ⟨t, ht, hmin⟩ := TraceIDFromString_canonical s hne hhex h32
  refine ⟨t, ht, hmin.2.1, hmin.1, hmin.2.2, ?_, ?_, ?_⟩
  · intro u hu
    exact MinimalLowerHex_unique u t _ hu hmin
  · exact MinimalLowerHex_length_le t s _ hmin hne rfl
  · intro s' t' h'
    obtain ⟨hne', hhex', h32'⟩ := TraceIDFromString_ok_input s' t' h'
    obtain ⟨t'', ht'', hmin'⟩ := TraceIDFromString_canonical s' hne' hhex' h32'
    have htt : t'' = t' := by
      rw [h'] at ht''
      exact (Prod.mk.inj ht'').1.symm
    rw [htt] at hmin'
    constructor
    · intro he
      rw [he] at hmin'
      exact hmin'.2.1.symm.trans hmin.2.1
    · intro hv
      rw [hv] at hmin'
      exact MinimalLowerHex_unique t' t _ hmin' hmin

/-- C17, an instance: a zero-padded 32-digit input in upper case and its 17-digit canonical
form, which is also the canonical form of the unpadded lowercase input. -/
theorem TraceIDFromString_preserves_value_witness :
    ∃ t, TraceIDFromString (str "0000000000000001000000000000000A") = (t, none) ∧
      hexValue t = hexValue (str "0000000000000001000000000000000A") ∧
      IsLowerHexString t ∧ NoLeadingZeros t ∧
      (∀ u, MinimalLowerHex u (hexValue (str "0000000000000001000000000000000A")) → u = t) ∧
      t.length ≤ (str "0000000000000001000000000000000A").length ∧
      (∀ s' t', TraceIDFromString s' = (t', none) →
        (t' = t ↔ hexValue s' = hexValue (str "0000000000000001000000000000000A"))) :=
  TraceIDFromString_preserves_value (str "0000000000000001000000000000000A") (by decide)
    (by decide) (by decide)

/-- C18: `TraceIDFromString` is idempotent on its outputs: when `TraceIDFromString s` succeeds
with result `t`, `TraceIDFromString t` succeeds and returns `t`; and when the high half of `s`
is not zero, `t` has 17 to 32 bytes and splits into the same high and low values. -/
theorem TraceIDFromString_idempotent (s t : GoString) (h : TraceIDFromString s = (t, none)) :
    TraceIDFromString t = (t, none) ∧
      (hexValue (highPart s) ≠ 0 →
        17 ≤ t.length ∧ t.length ≤ 32 ∧
        hexValue (highPart t) = hexValue (highPart s) ∧
        hexValue (lowPart t) = hexValue (lowPart s)) := by
  obtain ⟨hne, hhex, h32⟩ := TraceIDFromString_ok_input s t h
  obtain ⟨t0, ht0, hmin⟩ := TraceIDFromString_canonical s hne hhex h32
  have htt : t0 = t := by
    rw [h] at ht0
    exact (Prod.mk.inj ht0).1.symm
  subst htt
  have hlen := MinimalLowerHex_length_le t0 s _ hmin hne rfl
  constructor
  · obtain ⟨t2, ht2, hmin2⟩ := TraceIDFromString_canonical t0 hmin.2.2.1 hmin.1.isHex
      (by omega)
    have : t2 = t0 := MinimalLowerHex_unique t2 t0 _ hmin2 ⟨hmin.1, rfl, hmin.2.2⟩
    rw [this] at ht2
    exact ht2
  · intro hhi
    obtain ⟨heq, hv1, hv2⟩ := TraceIDFromString_hex_eq s hne hhex h32
    rw [h, if_neg hhi] at heq
    have ht : t0 = fmt.sprintf_x (hexValue (highPart s)) ++
        fmt.fmtInteger (hexValue (lowPart s)) 16 := (Prod.mk.inj heq).1
    obtain ⟨⟨-, ha2, ha3, -⟩, ha5⟩ := sprintf_x_spec _ hv1
    obtain ⟨hb1, -, hb3⟩ := fmtInteger_16_spec _ hv2
    have hl : t0.length = (fmt.sprintf_x (hexValue (highPart s))).length + 16 := by
      rw [ht, List.length_append, hb1]
    have hpos : 0 < (fmt.sprintf_x (hexValue (highPart s))).length :=
      List.length_pos.mpr ha3
    have hhigh : highPart t0 = fmt.sprintf_x (hexValue (highPart s)) := by
      have hdef : highPart t0 = t0.take (t0.length - 16) := rfl
      rw [hdef, hl, Nat.add_sub_cancel, ht, List.take_left]
    have hlow : lowPart t0 = fmt.fmtInteger (hexValue (lowPart s)) 16 := by
      have hdef : lowPart t0 = t0.drop (t0.length - 16) := rfl
      rw [hdef, hl, Nat.add_sub_cancel, ht, List.drop_left]
    refine ⟨by omega, by omega, ?_, ?_⟩
    · rw [hhigh, ha2]
    · rw [hlow, hb3]

/-- C18, an instance: the canonical form of a padded mixed-case input is a fixed point. -/
theorem TraceIDFromString_idempotent_witness :
    TraceIDFromString (str "000048485A3953bb61246453f91ca2d4")
        = (str "48485a3953bb61246453f91ca2d4", none) ∧
      TraceIDFromString (str "48485a3953bb61246453f91ca2d4")
        = (str "48485a3953bb61246453f91ca2d4", none) :=
  ⟨by decide, (TraceIDFromString_idempotent (str "000048485A3953bb61246453f91ca2d4")
    (str "48485a3953bb61246453f91ca2d4") (by decide)).1⟩

/-- C19: `Parent()` returns the empty string with no error if and only if the wire `parentId`
is the empty string, because `IDFromString` never returns an empty string on success. -/
theorem span_Parent_empty_iff (s : span) :
    (s.Parent = ([], none) ↔ s.ParentID = []) ∧
      ∀ x t, IDFromString x = (t, none) → t ≠ [] := by
  refine ⟨⟨?_, ?_⟩, IDFromString_ok_ne_nil⟩
  · intro h
    by_contra hne
    unfold span.Parent at h
    rw [if_neg hne] at h
    exact IDFromString_ok_ne_nil _ _ h rfl
  · intro h
    unfold span.Parent
    rw [if_pos h]

/-- C19, instances: a `parentId` of `"0"` yields `"0"`, which is not the empty result of an
absent `parentId`. -/
theorem span_Parent_empty_iff_witness :
    span.Parent { span.zero with ParentID := str "0" } = (str "0", none) ∧
      span.Parent { span.zero with ParentID := str "0" } ≠ ([], none) ∧
      span.zero.Parent = ([], none) :=
  ⟨by decide,
    fun h => absurd ((span_Parent_empty_iff { span.zero with ParentID := str "0" }).1.mp h)
      (by decide),
    (span_Parent_empty_iff span.zero).1.mpr rfl⟩

/-! ## Durations, endpoints, letter case, totality, laziness, annotations: the claims -/

/-- C11, on the body `[{"duration":-1}]`: `Decode` returns the record with the wire duration
`-1`, a 64-bit integer, and `Duration()` of that record is the negative interval of -1000 ns. -/
theorem span_Duration_negative :
    (Decode (some (.arr [.obj [(str "duration", .num (-1))]]))).err = none ∧
      (Decode (some (.arr [.obj [(str "duration", .num (-1))]]))).at 0
        = some { span.zero with Dur := some (-1) } ∧
      span.Duration { span.zero with Dur := some (-1) } = -1000 ∧
      ¬ 0 ≤ span.Duration { span.zero with Dur := some (-1) } := by
  decide

/-- C11 (amended): `Duration()` is a non-negative interval when the wire duration is absent
and when it is an integer `d` with `0 ≤ d ≤ 9223372036854775`; when `d` is negative, down to
`-9223372036854775`, `Duration()` is the negative interval of `d * 1000` ns. -/
theorem span_Duration_sign (s : span) :
    (s.Dur = none → 0 ≤ s.Duration) ∧
      ∀ d : Int, s.Dur = some d →
        (0 ≤ d → d ≤ 9223372036854775 → 0 ≤ s.Duration) ∧
        (d < 0 → -9223372036854775 ≤ d → s.Duration = d * 1000 ∧ s.Duration < 0) := by
  constructor
  · intro h
    unfold span.Duration; rw [h]
  · intro d hd
    have hdur : s.Duration = wrapInt64 (d * 1000) := by
      unfold span.Duration; rw [hd]; rfl
    rw [hdur]
    constructor
    · intro h0 h1
      rw [wrapInt64_of_range _ (by omega) (by omega)]
      omega
    · intro h0 h1
      rw [wrapInt64_of_range _ (by omega) (by omega)]
      exact ⟨rfl, by omega⟩

/-- C11, instances: an absent duration and the duration 2000 give non-negative intervals. -/
theorem span_Duration_sign_witness :
    0 ≤ span.zero.Duration ∧ 0 ≤ span.Duration { span.zero with Dur := some 2000 } :=
  ⟨(span_Duration_sign span.zero).1 rfl,
    ((span_Duration_sign { span.zero with Dur := some 2000 }).2 2000 rfl).1 (by decide)
      (by decide)⟩

/-- C12: for every endpoint, `Host()` is the bare `ipv4` string when `port = 0`, and `ipv4`
followed by `:` and the decimal rendering of `port` when `port != 0` (`port` being a 64-bit
`int`); `Name()` is `service_name`. -/
theorem endpoint_Host_spec (e : endpoint) (hlo : -2 ^ 63 ≤ e.Port) (hhi : e.Port < 2 ^ 63) :
    (e.Port = 0 → e.Host = e.Ipv4) ∧
      (e.Port ≠ 0 → ∃ d, e.Host = e.Ipv4 ++ str ":" ++ d ∧ SignedDecimal d e.Port) ∧
      e.Name = e.ServiceName := by
  refine ⟨?_, ?_, rfl⟩
  · intro h
    unfold endpoint.Host
    rw [if_neg (by simpa using h)]
  · intro h
    unfold endpoint.Host
    rw [if_pos h]
    exact ⟨_, rfl, fmtIntegerDec_spec e.Port hlo hhi⟩

/-- C12, an instance: `ipv4` `"10.0.0.1"` with port 8080 gives `"10.0.0.1:8080"`. -/
theorem endpoint_Host_spec_witness :
    endpoint.Host ⟨str "web", str "10.0.0.1", [], 8080⟩ = str "10.0.0.1:8080" ∧
      (∃ d, endpoint.Host ⟨str "web", str "10.0.0.1", [], 8080⟩
          = str "10.0.0.1" ++ str ":" ++ d ∧ SignedDecimal d 8080) ∧
      endpoint.Name ⟨str "web", str "10.0.0.1", [], 8080⟩ = str "web" :=
  ⟨by decide,
    (endpoint_Host_spec ⟨str "web", str "10.0.0.1", [], 8080⟩ (by decide) (by decide)).2.1
      (by decide),
    (endpoint_Host_spec ⟨str "web", str "10.0.0.1", [], 8080⟩ (by decide) (by decide)).2.2⟩

/-- C13: identifier parsing is case-insensitive: for every string `s`, `IDFromString` and
`TraceIDFromString` return agreeing results (the same value, or both fail) on `s`, on `s` with
its letters upper-cased and on `s` with its letters lower-cased; and every successful
`TraceIDFromString` output is made of the characters `0-9` and `a-f` only. -/
theorem identifier_case_insensitive (s : GoString) :
    SameResult (IDFromString s) (IDFromString (toUpper s)) ∧
      SameResult (IDFromString s) (IDFromString (toLower s)) ∧
      SameResult (TraceIDFromString s) (TraceIDFromString (toUpper s)) ∧
      SameResult (TraceIDFromString s) (TraceIDFromString (toLower s)) ∧
      ∀ t, TraceIDFromString s = (t, none) → IsLowerHexString t := by
  refine ⟨IDFromString_congr s _ (map_digitOf_toUpper s),
    IDFromString_congr s _ (map_digitOf_toLower s),
    TraceIDFromString_congr s _ (map_digitOf_toUpper s),
    TraceIDFromString_congr s _ (map_digitOf_toLower s), ?_⟩
  intro t h
  obtain ⟨hne, hhex, h32⟩ := TraceIDFromString_ok_input s t h
  obtain ⟨t0, ht0, hmin⟩ := TraceIDFromString_canonical s hne hhex h32
  rw [h] at ht0
  rw [(Prod.mk.inj ht0).1]
  exact hmin.1

/-- C13, an instance: a mixed-case trace ID, its upper-cased and its lower-cased forms all
give the same lowercase output. -/
theorem identifier_case_insensitive_witness :
    toUpper (str "48485a3953BB6124") = str "48485A3953BB6124" ∧
      toLower (str "48485a3953BB6124") = str "48485a3953bb6124" ∧
      SameResult (TraceIDFromString (str "48485a3953BB6124"))
        (TraceIDFromString (toUpper (str "48485a3953BB6124"))) ∧
      TraceIDFromString (str "48485A3953BB6124") = (str "48485a3953bb6124", none) ∧
      IsLowerHexString (str "48485a3953bb6124") :=
  ⟨by decide, by decide, (identifier_case_insensitive (str "48485a3953BB6124")).2.2.1,
    by decide,
    (identifier_case_insensitive (str "48485a3953BB6124")).2.2.2.2 _ (by decide)⟩

/-- C14: `TraceIDFromString` and `IDFromString` are total on every input string: the slice
expressions `s[0:len-16]` and `s[len-16:]` are in bounds whenever they are evaluated, so the
checked transcription never panics and agrees with the plain one; each call returns either a
non-empty value with no error, or an error with the empty string. -/
theorem identifier_functions_total (s : GoString) :
    TraceIDFromStringChecked s = some (TraceIDFromString s) ∧
      (16 < s.length →
        slice s 0 ((s.length : Int) - 16) = some (highPart s) ∧
        slice s ((s.length : Int) - 16) s.length = some (lowPart s)) ∧
      (((TraceIDFromString s).2 = none ∧ (TraceIDFromString s).1 ≠ []) ∨
        ((TraceIDFromString s).2 ≠ none ∧ (TraceIDFromString s).1 = [])) ∧
      (((IDFromString s).2 = none ∧ (IDFromString s).1 ≠ []) ∨
        ((IDFromString s).2 ≠ none ∧ (IDFromString s).1 = [])) := by
  refine ⟨TraceIDFromStringChecked_eq s, slice_in_bounds s, ?_, ?_⟩
  · by_cases h : (TraceIDFromString s).2 = none
    · exact Or.inl ⟨h, TraceIDFromString_ok_ne_nil s _ (by rw [← h])⟩
    · exact Or.inr ⟨h, TraceIDFromString_err_empty s h⟩
  · by_cases h : (IDFromString s).2 = none
    · exact Or.inl ⟨h, IDFromString_ok_ne_nil s _ (by rw [← h])⟩
    · exact Or.inr ⟨h, IDFromString_err_empty s h⟩

/-- C14, an instance: 17 bytes whose high half `"1"` parses and whose low half does not; the
result is the syntax error for the low half, with the empty string. -/
theorem identifier_functions_total_witness :
    TraceIDFromStringChecked (str "1000000000000000g")
        = some ([], some (Error.numSyntax (str "000000000000000g"))) ∧
      TraceIDFromString (str "1000000000000000g")
        = ([], some (Error.numSyntax (str "000000000000000g"))) :=
  ⟨((identifier_functions_total (str "1000000000000000g")).1).trans (by decide), by decide⟩

/-- C15, on the body `badFirstBody`, whose first span has the non-hexadecimal `traceId` `"zz"`
and whose second span has the `traceId` `"1"`: `json.Unmarshal` yields the two records in
order, `Trace()` of the first record is an error, and `Decode` succeeds with two entries; but
both entries hold the same pointer and read the second record, so the span with `traceId`
`"zz"` is not returned: `Trace()` and `Name()` of the first returned span are `"1"` and `"b"`,
and the error of the bad `traceId` is never reported. -/
theorem Decode_bad_trace_not_returned :
    (json.Unmarshal (some badFirstBody) []).1.map span.TraceID = [str "zz", str "1"] ∧
      (json.Unmarshal (some badFirstBody) []).1.map span.Trace
        = [([], some (Error.numSyntax (str "zz"))), (str "1", none)] ∧
      (Decode (some badFirstBody)).err = none ∧
      (Decode (some badFirstBody)).res = [some 0, some 0] ∧
      ((Decode (some badFirstBody)).at 0).map span.Trace = some (str "1", none) ∧
      ((Decode (some badFirstBody)).at 0).map span.Name = some (str "b") ∧
      ((Decode (some badFirstBody)).at 1).map span.Trace = some (str "1", none) := by
  decide

/-- C16, on the record `twoAnnotationSpan` with the annotations `"cs"`, `"cr"` and the binary
annotations `("k1", "v1")`, `("k2", "v2")`: `Annotations()` and `BinaryAnnotations()` return
two entries each, but both entries hold the same pointer; `Value()` of the first returned
annotation is `"cr"`, not `"cs"`, and `Key()`, `Value()` of the first returned binary
annotation are `"k2"`, `"v2"`, not `"k1"`, `"v1"`. -/
theorem Annotations_first_reads_last :
    twoAnnotationSpan.Anno.map annotation.Value = [str "cs", str "cr"] ∧
      twoAnnotationSpan.Annotations.res = [some 0, some 0] ∧
      (twoAnnotationSpan.Annotations.at 0).map annotation.Value = some (str "cr") ∧
      (twoAnnotationSpan.Annotations.at 0).map annotation.Value ≠ some (str "cs") ∧
      twoAnnotationSpan.BinaryAnnotations.res = [some 0, some 0] ∧
      (twoAnnotationSpan.BinaryAnnotations.at 0).map binaryAnnotation.Key
        = some (str "k2") ∧
      (twoAnnotationSpan.BinaryAnnotations.at 0).map binaryAnnotation.Value
        = some (str "v2") := by
  decide

end Zipkin
